import Mathlib

/-!
Shallow embedding of the argparse C library (argparse.c, argparse_hash.c,
argparse_error.c) for verification of its specification.

Modelling conventions:
* C strings become Lean `String` / `List Char`; the NUL terminator is implicit.
* Machine integers become `Nat` / `Int` with explicit reductions modulo `2 ^ 32`
  where the C code relies on `uint32_t` wraparound (the FNV hash).
* `double` values are represented by `Rat`; the numeric grammar of `strtod` is
  modelled for plain decimal forms.  No claim in this development depends on
  the numeric value of a double.
* Pointers to `Argument` structures become indices into the declaration-ordered
  registry list; pointer equality becomes index equality.
* Allocation failure (`malloc` returning NULL) is not modelled: every
  allocation succeeds.  The corresponding `APE_MEMORY` branches are therefore
  unreachable in the model.
* The thread-local error singleton of argparse_error.c becomes an explicit
  `ErrState` value threaded through the functions that read or write it.
* `exit(EXIT_FAILURE)` performed by the `APE_RETURN_IF_ERROR` macro is
  modelled as an outcome flag `exited` on the result of `argparse_parse`.
-/

namespace Argparse

/-! ## Error reporter (argparse_error.h / argparse_error.c) -/

/-- Error categories, mirroring `enum ArgParseErrorCategory`. -/
inductive ErrCat where
  | success
  | memoryErr
  | synErr
  | typeErr
  | requiredErr
  | validationErr
  | internalErr
  | configErr
  | rangeErr
  | unknownArg
  | duplicateArg
  | helpRequested
deriving DecidableEq, Repr

/-- Errno constants used by the library (numeric values as on Linux). -/
def EINVAL : Nat := 22

/-- Errno constant ENOMEM. -/
def ENOMEM : Nat := 12

/-- Errno constant ERANGE. -/
def ERANGE : Nat := 34

/-- Thread-local error state, mirroring `ArgParseError` plus the
`g_error_occurred` flag.  The formatted message buffer is represented by the
raw user message; category and argument name are kept as separate fields. -/
structure ErrState where
  category : ErrCat
  errnoVal : Nat
  argName : String
  message : String
  occurred : Bool
deriving DecidableEq, Repr

/-- Model of `argparse_error_clear`. -/
def argparse_error_clear : ErrState :=
  ⟨.success, 0, "", "", false⟩

/-- Model of `argparse_error_set` (the `APE_SET` macro): overwrites the state
and marks an error as occurred.  A NULL argument name is stored as `""`. -/
def apeSet (cat : ErrCat) (e : Nat) (arg : String) (msg : String) : ErrState :=
  ⟨cat, e, arg, msg, true⟩

/-- Model of `argparse_error_is_fatal`: every category except success and
help-requested is fatal. -/
def argparse_error_is_fatal (s : ErrState) : Bool :=
  match s.category with
  | .helpRequested => false
  | .success => false
  | _ => true

/-! ## Character classification helpers (ctype.h as used by the code) -/

/-- Model of C `isspace` in the default locale. -/
def isSpaceC (c : Char) : Bool :=
  c = ' ' || c = '\t' || c = '\n' || c = Char.ofNat 11 || c = Char.ofNat 12 || c = '\r'

/-- Model of C `isdigit`. -/
def isDigitC (c : Char) : Bool :=
  '0' ≤ c && c ≤ '9'

/-- Model of C `isalnum` (ASCII letters and digits). -/
def isAlnumC (c : Char) : Bool :=
  isDigitC c || ('a' ≤ c && c ≤ 'z') || ('A' ≤ c && c ≤ 'Z')

/-- Numeric value of a digit character. -/
def digitVal (c : Char) : Nat := c.toNat - 48

/-! ## Converter: get_safe_int (argparse.c lines 234-265)

The C function skips leading whitespace, calls `strtol(p, &endptr, 10)`,
rejects when no conversion happened, rejects trailing non-whitespace
characters, rejects `errno == ERANGE`, and rejects values outside
`[INT_MIN, INT_MAX]`.  `strtol` itself consumes an optional single sign
followed by a maximal run of decimal digits.  The net acceptance condition is
modelled exactly: optional whitespace, optional sign, one or more digits,
optional trailing whitespace, with the mathematical value of the digits
(never clamped) required to lie in the signed 32-bit range. -/

/-- Magnitude denoted by a digit string, most significant digit first,
accumulated exactly as repeated `10 * acc + digit` (no wraparound: the model
rejects out-of-range values before any truncation could occur, as the C code
rejects them via the `ERANGE` / `INT_MAX` / `INT_MIN` checks). -/
def digitsToNat (ds : List Char) : Nat :=
  ds.foldl (fun a c => 10 * a + digitVal c) 0

/-- INT_MAX on the modelled platform. -/
def INT_MAX : Int := 2147483647

/-- INT_MIN on the modelled platform. -/
def INT_MIN : Int := -2147483648

/-- Model of `get_safe_int`: returns `some v` exactly when the C function
returns `true` and writes `v`, and `none` when it returns `false`. -/
def get_safe_int (s : String) : Option Int :=
  let cs := s.toList.dropWhile isSpaceC
  match cs with
  | [] => none
  | _ =>
    let signed : Bool × List Char :=
      match cs with
      | '-' :: r => (true, r)
      | '+' :: r => (false, r)
      | r => (false, r)
    let ds := signed.2.takeWhile isDigitC
    let tail := signed.2.dropWhile isDigitC
    if ds = [] then none
    else if ¬ tail.all isSpaceC then none
    else
      let v : Int := if signed.1 then -(digitsToNat ds : Int) else (digitsToNat ds : Int)
      if v > INT_MAX ∨ v < INT_MIN then none else some v

/-! ## Converter: get_safe_double (argparse.c lines 267-293)

Same whitespace and trailing-garbage shell as `get_safe_int`, with `strtod`
as the numeric core.  Doubles are modelled as rationals and the grammar is
restricted to plain decimal forms `[sign] digits [. digits] [e|E [sign]
digits]`; hexadecimal floats and the `inf`/`nan` spellings (which the C code
rejects afterwards through `fpclassify`) are not accepted by the model.
No claim in this development depends on this function beyond totality. -/

/-- Exponent application for the decimal double grammar. -/
def applyExp (q : Rat) (negExp : Bool) (e : Nat) : Rat :=
  if negExp then q / ((10 : Rat) ^ e) else q * ((10 : Rat) ^ e)

/-- Numeric core of the modelled `strtod`: mantissa digits with optional
fraction and exponent.  Returns the value and the unconsumed characters, or
`none` when no conversion happened. -/
def strtodCore (cs : List Char) : Option (Rat × List Char) :=
  let signed : Bool × List Char :=
    match cs with
    | '-' :: r => (true, r)
    | '+' :: r => (false, r)
    | r => (false, r)
  let ip := signed.2.takeWhile isDigitC
  let afterInt := signed.2.dropWhile isDigitC
  let frac : List Char × List Char :=
    match afterInt with
    | '.' :: r => (r.takeWhile isDigitC, r.dropWhile isDigitC)
    | r => ([], r)
  if ip = [] ∧ (afterInt.head? ≠ some '.' ∨ frac.1 = []) then none
  else
    let mant : Rat := (digitsToNat ip : Rat) +
      (digitsToNat frac.1 : Rat) / ((10 : Rat) ^ frac.1.length)
    let base : Rat := if signed.1 then -mant else mant
    let rest := if afterInt.head? = some '.' then frac.2 else afterInt
    match rest with
    | 'e' :: r | 'E' :: r =>
      let esigned : Bool × List Char :=
        match r with
        | '-' :: r2 => (true, r2)
        | '+' :: r2 => (false, r2)
        | r2 => (false, r2)
      let eds := esigned.2.takeWhile isDigitC
      if eds = [] then some (base, rest)
      else some (applyExp base esigned.1 (digitsToNat eds), esigned.2.dropWhile isDigitC)
    | _ => some (base, rest)

/-- Model of `get_safe_double`. -/
def get_safe_double (s : String) : Option Rat :=
  let cs := s.toList.dropWhile isSpaceC
  match cs with
  | [] => none
  | _ =>
    match strtodCore cs with
    | none => none
    | some (v, rest) =>
      if ¬ rest.all isSpaceC then none else some v

/-! ## Data model (argparse.h) -/

/-- Mirror of `enum ArgType`. -/
inductive ArgType where
  | argInt
  | argDouble
  | argString
  | argBool
  | argIntList
  | argDoubleList
  | argStringList
deriving DecidableEq, Repr

/-- Mirror of `is_list_type`. -/
def is_list_type (t : ArgType) : Bool :=
  t = .argIntList || t = .argDoubleList || t = .argStringList

/-- Typed view of the `void* value` field of an `Argument`.  `vNone` is the
NULL pointer (the unset string scalar).  List values hold the chain of
`ListNode` data payloads in list order (head first). -/
inductive ArgValue where
  | vNone
  | vInt (n : Int)
  | vDouble (q : Rat)
  | vBool (b : Bool)
  | vStr (s : String)
  | vIntList (l : List Int)
  | vDoubleList (l : List Rat)
  | vStrList (l : List String)
deriving DecidableEq, Repr

/-- Mirror of `struct Argument`.  The `next` pointer of the intrusive linked
list is represented by membership in the registry list.  `suffix` and
`delimiter` are the two `unsigned char` fields; `Char.ofNat 0` is the C value
`0` (suffix disabled). -/
structure Argument where
  short_name : Option String
  long_name : Option String
  help : Option String
  type : ArgType
  value : ArgValue
  required : Bool
  set : Bool
  suffix : Char
  delimiter : Char
deriving DecidableEq, Repr

/-- Derived field `is_list` (set from the type at creation, never
independently). -/
def Argument.is_list (a : Argument) : Bool := is_list_type a.type

/-- Argument name used for error reporting inside value-parsing code paths:
`long_name ? long_name : short_name ? short_name : "(unnamed)"`. -/
def argErrName (a : Argument) : String :=
  match a.long_name with
  | some l => l
  | none =>
    match a.short_name with
    | some s => s
    | none => "(unnamed)"

/-- Argument name used by required-argument validation:
`short_name ? short_name : long_name ? long_name : "(unnamed)"`. -/
def argReqName (a : Argument) : String :=
  match a.short_name with
  | some s => s
  | none =>
    match a.long_name with
    | some l => l
    | none => "(unnamed)"

/-- Names under which an argument is registered in the lookup structures. -/
def argNames (a : Argument) : List String :=
  a.short_name.toList ++ a.long_name.toList

/-! ## Hash table (argparse_hash.h / argparse_hash.c)

The randomized seed produced by `secure_random_seed` is an external entropy
source (explicitly out of scope for the core per the specification); the
model takes the seed as a parameter.  Bucket arrays become functions
`Nat → List HashEntry`; indices at or above `capacity` always map to `[]`
for every table reachable by the modelled operations. -/

/-- Wraparound modulus for `uint32_t` arithmetic. -/
def U32 : Nat := 4294967296

/-- One FNV-1a step `hash = (hash ^ byte) * FNV_PRIME` in `uint32_t`. -/
def fnvStep (h : Nat) (c : Nat) : Nat :=
  ((h ^^^ c % 256) * 16777619) % U32

/-- Final avalanche mixing of `hash_string` (`uint32_t` arithmetic; xor with
a right shift of a value below `2 ^ 32` stays below `2 ^ 32`, so only the
multiplications need an explicit reduction). -/
def fnvFinal (h0 : Nat) : Nat :=
  let h1 := h0 ^^^ (h0 >>> 16)
  let h2 := (h1 * 2246822507) % U32
  let h3 := h2 ^^^ (h2 >>> 13)
  let h4 := (h3 * 3266489909) % U32
  h4 ^^^ (h4 >>> 16)

/-- Model of `hash_string`: randomized FNV-1a over the bytes of the key
(names are ASCII, so `Char.toNat` is the byte value) followed by the final
mixing. -/
def hashString (s : String) (seed : Nat) : Nat :=
  fnvFinal (s.toList.foldl (fun h c => fnvStep h c.toNat) ((2166136261 ^^^ seed % U32) % U32))

/-- Mirror of `struct HashEntry`; the `argument` pointer is a registry
index. -/
structure HashEntry where
  key : String
  argument : Nat
deriving DecidableEq, Repr

/-- Mirror of `struct ArgHashTable`. -/
structure ArgHashTable where
  buckets : Nat → List HashEntry
  capacity : Nat
  size : Nat
  seed : Nat

/-- Bucket index `hash_string(key, seed) & (capacity - 1)`. -/
def bucketIndex (t : ArgHashTable) (k : String) : Nat :=
  Nat.land (hashString k t.seed) (t.capacity - 1)

/-- Model of `argparse_hash_create_internal`: default capacity
`ARGPARSE_HASH_TABLE_SIZE = 256`, all buckets empty, size 0. -/
def argparse_hash_create_internal (seed : Nat) : ArgHashTable :=
  ⟨fun _ => [], 256, 0, seed⟩

/-- Every entry of the table, scanning buckets `0 .. capacity - 1` in order
(the traversal order of the C `for` loops over `table->buckets`). -/
def allEntries (t : ArgHashTable) : List HashEntry :=
  ((List.range t.capacity).map t.buckets).flatten

/-- Prepend one entry onto the bucket selected by the index function `f`
(the `entry->next = new_buckets[i]; new_buckets[i] = entry` pattern). -/
def placeEntry (f : String → Nat) (bs : Nat → List HashEntry) (e : HashEntry) :
    Nat → List HashEntry :=
  fun j => if j = f e.key then e :: bs j else bs j

/-- Model of `hash_table_resize`: capacity doubles and every entry is
rehashed into the new bucket array in traversal order.  The `calloc` failure
branch and the (impossible for `Nat`) capacity-overflow branch are not
modelled. -/
def hash_table_resize (t : ArgHashTable) : ArgHashTable :=
  let ncap := t.capacity * 2
  ⟨(allEntries t).foldl
      (placeEntry (fun k => Nat.land (hashString k t.seed) (ncap - 1))) (fun _ => []),
    ncap, t.size, t.seed⟩

/-- In-place update of the first entry with the given key in a bucket chain
(the duplicate-check `while` loop of `argparse_hash_insert_internal`). -/
def updateEntry (k : String) (v : Nat) : List HashEntry → List HashEntry
  | [] => []
  | e :: es => if e.key = k then ⟨e.key, v⟩ :: es else e :: updateEntry k v es

/-- Model of `argparse_hash_insert_internal`.  The load-factor comparison
`(float)size / (float)capacity > 0.75f` is exact because capacity is a power
of two (division by a power of two is exact in float and both operands are
exactly representable), so it is `4 * size > 3 * capacity` over `Nat`. -/
def argparse_hash_insert_internal (t : ArgHashTable) (k : String) (v : Nat) : ArgHashTable :=
  let t := if 4 * t.size > 3 * t.capacity then hash_table_resize t else t
  let i := bucketIndex t k
  if (t.buckets i).any (fun e => e.key = k) then
    ⟨fun j => if j = i then updateEntry k v (t.buckets i) else t.buckets j,
      t.capacity, t.size, t.seed⟩
  else
    ⟨fun j => if j = i then ⟨k, v⟩ :: t.buckets j else t.buckets j,
      t.capacity, t.size + 1, t.seed⟩

/-- Model of `argparse_hash_lookup_internal` (bucket chain scan). -/
def argparse_hash_lookup_internal (t : ArgHashTable) (k : String) : Option Nat :=
  ((t.buckets (bucketIndex t k)).find? (fun e => e.key = k)).map (fun e => e.argument)

/-- Insertion of one argument into the table under its short and then its
long name (the body of the build loop of `ensure_hash_table_built`, and of
`insert_argument_into_hash_table` when the table exists). -/
def insertArgNames (t : ArgHashTable) (a : Argument) (idx : Nat) : ArgHashTable :=
  let t1 :=
    match a.short_name with
    | some s => argparse_hash_insert_internal t s idx
    | none => t
  match a.long_name with
  | some s => argparse_hash_insert_internal t1 s idx
  | none => t1

/-- Build loop of `ensure_hash_table_built`: walk the registry in declaration
order inserting every name. -/
def buildFrom (t : ArgHashTable) (idx : Nat) : List Argument → ArgHashTable
  | [] => t
  | a :: rest => buildFrom (insertArgNames t a idx) (idx + 1) rest

/-- Hash table produced by `ensure_hash_table_built` over a registry. -/
def builtTable (args : List Argument) (seed : Nat) : ArgHashTable :=
  buildFrom (argparse_hash_create_internal seed) 0 args

/-- Linear lookup fallback of `argparse_hash_find_argument`: first argument
whose short or long name equals the query, short name checked first. -/
def linearFindFrom (i : Nat) : List Argument → String → Option Nat
  | [], _ => none
  | a :: rest, n =>
    if a.short_name = some n then some i
    else if a.long_name = some n then some i
    else linearFindFrom (i + 1) rest n

/-! ## Parser structure and registry operations (argparse.c) -/

/-- Mirror of `struct ArgParser`.  `seedSrc` is the entropy value that
`secure_random_seed` would produce when the hash table is created (seeding is
an external collaborator; the core only needs a seed value). -/
structure ArgParser where
  arguments : List Argument
  program_name : Option String
  description : Option String
  help_requested : Bool
  help_added : Bool
  hash_table : Option ArgHashTable
  argument_count : Nat
  hash_enabled : Bool
  seedSrc : Nat

/-- Typed view of the `void* default_value` parameter of
`argparse_add_argument`.  `dvNone` is the NULL pointer. -/
inductive DefaultVal where
  | dvNone
  | dvInt (n : Int)
  | dvDouble (q : Rat)
  | dvStr (s : String)
  | dvBool (b : Bool)
deriving DecidableEq, Repr

/-- Reads of a non-NULL `void* default_value` at scalar type.  A call with a
default of the wrong dynamic type reads reinterpreted memory in C (undefined
for the model); all call sites in this development pass a matching type, for
which the accessors are exact. -/
def DefaultVal.asInt : DefaultVal → Int
  | .dvInt n => n
  | _ => 0

/-- Double read of a default value (see `DefaultVal.asInt`). -/
def DefaultVal.asDouble : DefaultVal → Rat
  | .dvDouble q => q
  | _ => 0

/-- String read of a default value (see `DefaultVal.asInt`). -/
def DefaultVal.asStr : DefaultVal → String
  | .dvStr s => s
  | _ => ""

/-- Bool read of a default value (see `DefaultVal.asInt`). -/
def DefaultVal.asBool : DefaultVal → Bool
  | .dvBool b => b
  | _ => false

/-- Model of `create_default_value`: zero/false boxed scalars, NULL for the
string scalar, an empty sequence for list types. -/
def create_default_value (t : ArgType) : ArgValue :=
  match t with
  | .argInt => .vInt 0
  | .argDouble => .vDouble 0
  | .argString => .vNone
  | .argBool => .vBool false
  | .argIntList => .vIntList []
  | .argDoubleList => .vDoubleList []
  | .argStringList => .vStrList []

/-- Model of `is_help_argument`: exact match against the reserved help
spellings, with the `%` rejection guard kept. -/
def is_help_argument (s : String) : Bool :=
  if s = "" then false
  else if s.toList.contains '%' then false
  else s = "-h" || s = "-H" || s = "--help" || s = "--HELP" ||
       s = "/?" || s = "/help" || s = "/HELP"

/-- Model of `ensure_hash_table_built` at the parser level: builds the table
over all current definitions once the count reaches
`ARGPARSE_HASH_THRESHOLD = 16` and switches `hash_enabled` on. -/
def ensure_hash_table_built (p : ArgParser) : ArgParser :=
  match p.hash_table with
  | some _ => p
  | none =>
    if p.argument_count < 16 then p
    else
      { p with
        hash_table := some (builtTable p.arguments p.seedSrc)
        hash_enabled := true }

/-- Model of `insert_argument_into_hash_table`: bumps the definition count,
then either inserts the new names into an existing table or builds the table
at the threshold.  `idx` is the registry index of the just-appended
argument. -/
def insert_argument_into_hash_table (p : ArgParser) (a : Argument) (idx : Nat) : ArgParser :=
  let p := { p with argument_count := p.argument_count + 1 }
  match p.hash_table with
  | some t => { p with hash_table := some (insertArgNames t a idx) }
  | none => ensure_hash_table_built p

/-- An `Option String` name parameter is absent or empty
(`!name || name[0] == 0`). -/
def nameEmpty : Option String → Bool
  | none => true
  | some s => s = ""

/-- A name parameter is a reserved help spelling (NULL is not). -/
def nameIsHelp : Option String → Bool
  | none => false
  | some s => is_help_argument s

/-- Model of `argparse_add_argument` (argparse.c lines 654-751).  Returns the
updated parser and the resulting error state.  Observed control flow of the C
function: clear the error; skip silently when `help_added` is false and a
name is a help spelling (dead in practice, since `argparse_new` sets
`help_added` to true before anything else); reject when both names are
empty; build the argument with `is_list` derived from the type, delimiter
`' '`, suffix `0`; install the default value; append at the registry tail;
maintain the hash structures.  There is no duplicate-name check. -/
def argparse_add_argument (p : ArgParser) (short_name long_name : Option String)
    (type : ArgType) (help : Option String) (required : Bool)
    (default_value : DefaultVal) : ArgParser × ErrState :=
  if ¬ p.help_added ∧ (nameIsHelp short_name ∨ nameIsHelp long_name) then
    (p, argparse_error_clear)
  else if nameEmpty short_name ∧ nameEmpty long_name then
    (p, apeSet .internalErr EINVAL "" "Both short and long names are empty.")
  else
    let value :=
      if default_value = .dvNone then create_default_value type
      else
        match type with
        | .argInt => .vInt default_value.asInt
        | .argDouble => .vDouble default_value.asDouble
        | .argString => .vStr default_value.asStr
        | .argBool => .vBool default_value.asBool
        | _ => create_default_value type
    let arg : Argument :=
      { short_name := short_name
        long_name := long_name
        help := help
        type := type
        value := value
        required := required
        set := false
        suffix := Char.ofNat 0
        delimiter := ' ' }
    let idx := p.arguments.length
    let p := { p with arguments := p.arguments ++ [arg] }
    (insert_argument_into_hash_table p arg idx, argparse_error_clear)

/-- Model of `argparse_new`: zero-initialized parser with `help_added` set to
true, then the automatic help argument `-h` / `--help`. -/
def argparse_new (description : Option String) (seed : Nat) : ArgParser :=
  let p : ArgParser :=
    { arguments := []
      program_name := none
      description := description
      help_requested := false
      help_added := true
      hash_table := none
      argument_count := 0
      hash_enabled := false
      seedSrc := seed }
  (argparse_add_argument p (some "-h") (some "--help") .argBool
      (some "Show this help message and exit") false .dvNone).1

/-- Replace the last argument of a list (the tail-walk of
`argparse_add_argument_ex` and `argparse_add_list_argument_ex`, which patch
the just-appended definition). -/
def patchLast (args : List Argument) (f : Argument → Argument) : List Argument :=
  match args with
  | [] => []
  | [a] => [f a]
  | a :: rest => a :: patchLast rest f

/-- Model of `argparse_add_argument_ex`: plain registration followed by a
patch of the `suffix` field on the registry tail. -/
def argparse_add_argument_ex (p : ArgParser) (short_name long_name : Option String)
    (type : ArgType) (help : Option String) (required : Bool)
    (default_value : DefaultVal) (suffix : Char) : ArgParser × ErrState :=
  let r := argparse_add_argument p short_name long_name type help required default_value
  if r.2.occurred then r
  else ({ r.1 with arguments := patchLast r.1.arguments (fun a => { a with suffix := suffix }) },
        r.2)

/-- Model of `argparse_add_list_argument`. -/
def argparse_add_list_argument (p : ArgParser) (short_name long_name : Option String)
    (list_type : ArgType) (help : Option String) (required : Bool) : ArgParser × ErrState :=
  argparse_add_argument p short_name long_name list_type help required .dvNone

/-- Model of `argparse_add_list_argument_ex`: type check, extended
registration, then a patch of the `delimiter` field on the registry tail. -/
def argparse_add_list_argument_ex (p : ArgParser) (short_name long_name : Option String)
    (list_type : ArgType) (help : Option String) (required : Bool)
    (suffix : Char) (delimiter : Char) : ArgParser × ErrState :=
  if ¬ is_list_type list_type then
    (p, apeSet .internalErr EINVAL
      (match short_name with
       | some s => s
       | none => match long_name with | some l => l | none => "(unnamed)")
      "Invalid list type.")
  else
    let r := argparse_add_argument_ex p short_name long_name list_type help required
      .dvNone suffix
    if r.2.occurred then r
    else ({ r.1 with
            arguments := patchLast r.1.arguments (fun a => { a with delimiter := delimiter }) },
          r.2)

/-! ## Lookup dispatch (argparse_hash.c lines 361-414)

`argparse_hash_find_argument` and `argparse_hash_is_argument` clear the
error state on entry and set an internal error for an empty key; the error
state is threaded explicitly because one code path of the parse driver can
observe it. -/

/-- Model of `argparse_hash_find_argument`: hash lookup when enabled, linear
scan otherwise. -/
def argparse_hash_find_argument (p : ArgParser) (name : String) :
    Option Nat × ErrState :=
  if name = "" then
    (none, apeSet .internalErr EINVAL "(null)" "Invalid parameters to argument lookup.")
  else
    match p.hash_table, p.hash_enabled with
    | some t, true => (argparse_hash_lookup_internal t name, argparse_error_clear)
    | _, _ => (linearFindFrom 0 p.arguments name, argparse_error_clear)

/-- Model of `argparse_hash_is_argument`. -/
def argparse_hash_is_argument (p : ArgParser) (s : String) : Bool × ErrState :=
  let r := argparse_hash_find_argument p s
  (r.1.isSome, r.2)

/-! ## Scalar conversion at argument level (parse_single_value) -/

/-- Model of `parse_single_value` (argparse.c lines 916-1064).  Clears the
error state on entry; returns the updated argument and the resulting error
state.  The NULL-pointer guards on `arg` and `str_val` are outside the model
(both are always supplied); the `arg->value == NULL` guards are the
`.vNone` cases. -/
def parse_single_value (a : Argument) (sv : String) : Argument × ErrState :=
  if a.is_list then
    (a, apeSet .internalErr EINVAL (argErrName a) "List argument processed in parse_single_value.")
  else
    match a.type with
    | .argInt =>
      if a.value = .vNone then
        (a, apeSet .internalErr EINVAL (argErrName a) "Argument value pointer is NULL.")
      else
        match get_safe_int sv with
        | none => (a, apeSet .typeErr EINVAL (argErrName a) "Invalid integer value.")
        | some v => ({ a with value := .vInt v, set := true }, argparse_error_clear)
    | .argDouble =>
      if a.value = .vNone then
        (a, apeSet .internalErr EINVAL (argErrName a) "Argument value pointer is NULL.")
      else
        match get_safe_double sv with
        | none => (a, apeSet .typeErr EINVAL (argErrName a) "Invalid floating-point value.")
        | some v => ({ a with value := .vDouble v, set := true }, argparse_error_clear)
    | .argString =>
      ({ a with value := .vStr sv, set := true }, argparse_error_clear)
    | .argBool =>
      if a.value = .vNone then
        (a, apeSet .internalErr EINVAL (argErrName a) "Argument value pointer is NULL.")
      else if sv = "" then
        ({ a with value := .vBool true, set := true }, argparse_error_clear)
      else
        let lower := String.mk ((sv.toList.take 63).map Char.toLower)
        if sv.length > 63 then
          (a, apeSet .rangeErr ERANGE (argErrName a) "Boolean value too long.")
        else if lower = "true" ∨ lower = "1" ∨ lower = "yes" ∨ lower = "on" ∨
            lower = "enable" ∨ lower = "enabled" then
          ({ a with value := .vBool true, set := true }, argparse_error_clear)
        else if lower = "false" ∨ lower = "0" ∨ lower = "no" ∨ lower = "off" ∨
            lower = "disable" ∨ lower = "disabled" then
          ({ a with value := .vBool false, set := true }, argparse_error_clear)
        else
          (a, apeSet .typeErr EINVAL (argErrName a)
            "Invalid boolean value. Use: true/false, yes/no, 1/0, on/off, enable/disable")
    | _ =>
      (a, apeSet .internalErr EINVAL (argErrName a) "Unknown argument type.")

/-! ## List value storage (append_to_list, argparse.c lines 129-220) -/

/-- One parsed list element (the `void* data` payload of a `ListNode`). -/
inductive ListElem where
  | eInt (n : Int)
  | eDouble (q : Rat)
  | eStr (s : String)
deriving DecidableEq, Repr

/-- Model of `append_to_list`: appends at the tail of the chain, creating the
list head on demand.  Does not clear the error state; on success it leaves
the incoming error state untouched.  The element/storage mismatch case is
unreachable from the call sites (the C code would store a wrongly-typed
payload there). -/
def append_to_list (a : Argument) (e : ListElem) (err : ErrState) : Argument × ErrState :=
  if ¬ a.is_list then
    (a, apeSet .internalErr EINVAL (argErrName a) "append_to_list: called on non-list argument.")
  else
    match a.value, e with
    | .vNone, .eInt n => ({ a with value := .vIntList [n] }, err)
    | .vNone, .eDouble q => ({ a with value := .vDoubleList [q] }, err)
    | .vNone, .eStr s => ({ a with value := .vStrList [s] }, err)
    | .vIntList l, .eInt n => ({ a with value := .vIntList (l ++ [n]) }, err)
    | .vDoubleList l, .eDouble q => ({ a with value := .vDoubleList (l ++ [q]) }, err)
    | .vStrList l, .eStr s => ({ a with value := .vStrList (l ++ [s]) }, err)
    | _, _ =>
      (a, apeSet .internalErr EINVAL (argErrName a) "List head pointer is NULL after validation.")

/-! ## Delimiter splitting (parse_list_with_delimiter, argparse.c 296-425) -/

/-- Loop of `parse_list_with_delimiter`: skip leading delimiters, cut the
token ending at the next delimiter or NUL, parse it per element type and
append, repeat from the token end.  Returns the argument, the error state
and the number of appended values; an early `return` of the C code is any
result whose error state has `occurred` set.  The fuel parameter only bounds
recursion depth: every iteration consumes at least one character, so fuel
equal to the character count (as passed by `parse_list_with_delimiter`)
never runs out. -/
def plwdLoop (a : Argument) (d : Char) (err : ErrState) (count : Nat) :
    Nat → List Char → Argument × ErrState × Nat
  | _, [] => (a, err, count)
  | 0, _ :: _ => (a, err, count)
  | fuel + 1, c :: cs =>
    if c = d then plwdLoop a d err count fuel cs
    else
      let tok := c :: cs.takeWhile (fun x => x ≠ d)
      let rest := cs.dropWhile (fun x => x ≠ d)
      match a.type with
      | .argIntList =>
        if 32 ≤ tok.length then
          (a, apeSet .rangeErr ERANGE (argErrName a) "List value too long for integer parsing.",
            count)
        else
          match get_safe_int (String.mk tok) with
          | some n =>
            let r := append_to_list a (.eInt n) err
            plwdLoop r.1 d r.2 (count + 1) fuel rest
          | none => (a, apeSet .typeErr EINVAL (argErrName a) "Invalid list value.", count)
      | .argDoubleList =>
        if 64 ≤ tok.length then
          (a, apeSet .rangeErr ERANGE (argErrName a) "List value too long for double parsing.",
            count)
        else
          match get_safe_double (String.mk tok) with
          | some q =>
            let r := append_to_list a (.eDouble q) err
            plwdLoop r.1 d r.2 (count + 1) fuel rest
          | none => (a, apeSet .typeErr EINVAL (argErrName a) "Invalid list value.", count)
      | .argStringList =>
        let r := append_to_list a (.eStr (String.mk tok)) err
        plwdLoop r.1 d r.2 (count + 1) fuel rest
      | _ => (a, apeSet .internalErr EINVAL (argErrName a) "Invalid list type.", count)
/-- Model of `parse_list_with_delimiter`: clears the error state, uses the
effective delimiter (`' '` when the field is 0), runs the splitting loop,
then reports `SyntaxError` for zero extracted sub-tokens or marks the
argument as set. -/
def parse_list_with_delimiter (a : Argument) (value_str : String) : Argument × ErrState :=
  if ¬ a.is_list then
    (a, apeSet .internalErr EINVAL (argErrName a) "Invalid list argument.")
  else
    let d := if a.delimiter = Char.ofNat 0 then ' ' else a.delimiter
    let r := plwdLoop a d argparse_error_clear 0 value_str.toList.length value_str.toList
    if r.2.1.occurred then (r.1, r.2.1)
    else if r.2.2 = 0 then
      (r.1, apeSet .synErr EINVAL (argErrName a) "List requires values.")
    else ({ r.1 with set := true }, r.2.1)

/-! ## Registry access helpers for the parse driver -/

/-- Placeholder argument used for the (never exercised) out-of-range read of
a registry index; lookup functions only produce valid indices. -/
def dummyArgument : Argument :=
  { short_name := none, long_name := none, help := none, type := .argBool,
    value := .vNone, required := false, set := false,
    suffix := Char.ofNat 0, delimiter := ' ' }

/-- Dereference of an `Argument*` held as a registry index. -/
def getArg (p : ArgParser) (i : Nat) : Argument :=
  p.arguments.getD i dummyArgument

/-- Write-back through an `Argument*` held as a registry index. -/
def setArg (p : ArgParser) (i : Nat) (a : Argument) : ArgParser :=
  { p with arguments := p.arguments.set i a }

/-! ## Multi-token list consumption (parse_list_values, argparse.c 428-531) -/

/-- Result of `parse_list_values`: final parser, error state, number of
values parsed, number of tokens consumed after the option token, and whether
the C function returned through an error path (`return current_index` with
an error set). -/
structure ListConsume where
  parser : ArgParser
  err : ErrState
  valuesParsed : Nat
  consumed : Nat
  aborted : Bool

/-- Loop of `parse_list_values`: consume following tokens while they are not
registered names.  Each loop-condition evaluation calls
`argparse_hash_find_argument`, which clears the error state and can set an
internal error for an empty-string token; the error state is threaded
exactly as in the C code (note that a successful string-list append does not
clear a lingering error). -/
def plvLoop (p : ArgParser) (aIdx : Nat) (err : ErrState) (valuesParsed consumed : Nat) :
    List String → ListConsume
  | [] => ⟨p, err, valuesParsed, consumed, false⟩
  | tok :: rest =>
    let f := argparse_hash_find_argument p tok
    if f.1.isSome then ⟨p, f.2, valuesParsed, consumed, false⟩
    else
      let a := getArg p aIdx
      let d := if a.delimiter = Char.ofNat 0 then ' ' else a.delimiter
      if d ≠ ' ' ∧ tok.toList.contains d then
        let r := parse_list_with_delimiter a tok
        if r.2.occurred then ⟨setArg p aIdx r.1, r.2, valuesParsed, consumed, true⟩
        else plvLoop (setArg p aIdx r.1) aIdx r.2 (valuesParsed + 1) (consumed + 1) rest
      else
        match a.type with
        | .argIntList =>
          match get_safe_int tok with
          | some n =>
            let r := append_to_list a (.eInt n) f.2
            plvLoop (setArg p aIdx r.1) aIdx r.2 (valuesParsed + 1) (consumed + 1) rest
          | none =>
            ⟨p, apeSet .typeErr EINVAL (argErrName a) "Invalid list value.",
              valuesParsed, consumed, true⟩
        | .argDoubleList =>
          match get_safe_double tok with
          | some q =>
            let r := append_to_list a (.eDouble q) f.2
            plvLoop (setArg p aIdx r.1) aIdx r.2 (valuesParsed + 1) (consumed + 1) rest
          | none =>
            ⟨p, apeSet .typeErr EINVAL (argErrName a) "Invalid list value.",
              valuesParsed, consumed, true⟩
        | .argStringList =>
          let r := append_to_list a (.eStr tok) f.2
          plvLoop (setArg p aIdx r.1) aIdx r.2 (valuesParsed + 1) (consumed + 1) rest
        | _ =>
          ⟨p, apeSet .typeErr EINVAL (argErrName a) "Invalid list value.",
            valuesParsed, consumed, true⟩

/-- Model of `parse_list_values`: clears the error state, runs the
consumption loop, reports `SyntaxError` if no value was consumed, otherwise
marks the argument as set.  The C return value `i - 1` corresponds to the
option-token index plus `consumed`. -/
def parse_list_values (p : ArgParser) (aIdx : Nat) (toks : List String) : ListConsume :=
  let r := plvLoop p aIdx argparse_error_clear 0 0 toks
  if r.aborted then r
  else if r.valuesParsed = 0 then
    { r with
      err := apeSet .synErr EINVAL (argErrName (getArg r.parser aIdx))
        "List argument requires values."
      aborted := true }
  else
    { r with parser := setArg r.parser aIdx { getArg r.parser aIdx with set := true } }

/-! ## GNU-joined detection (is_gnu_argument, argparse.c 779-861) -/

/-- Model of `skip_dynamic_prefix`: drop leading non-alphanumeric
characters. -/
def skipDynamicLead (cs : List Char) : List Char :=
  cs.dropWhile (fun c => ¬ isAlnumC c)

/-- Clean-name comparison of `is_gnu_argument` against one registered name:
the name with its lead characters stripped must equal the stripped token
prefix (C checks the length and then `strncmp`, which is list equality). -/
def gnuMatchName (n : Option String) (argClean : List Char) : Bool :=
  match n with
  | none => false
  | some nm => skipDynamicLead nm.toList = argClean

/-- Single-argument body of the `is_gnu_argument` scan.  `idxOf?` is
`strchr`: position of the first occurrence of the suffix character.  Returns
the inline value (everything after the suffix) on a match. -/
def gnuMatchOne (a : Argument) (argStr : List Char) : Option (List Char) :=
  if a.suffix = Char.ofNat 0 then none
  else
    match argStr.indexOf? a.suffix with
    | none => none
    | some pos =>
      if pos = 0 then none
      else
        let lead := (argStr.takeWhile (fun c => ¬ isAlnumC c)).length
        if pos ≤ lead then none
        else
          let argClean := (argStr.drop lead).take (pos - lead)
          if gnuMatchName a.short_name argClean ∨ gnuMatchName a.long_name argClean then
            some (argStr.drop (pos + 1))
          else none

/-- Declaration-ordered scan of `is_gnu_argument`; first match wins. -/
def gnuFindFrom (i : Nat) : List Argument → List Char → Option (Nat × List Char)
  | [], _ => none
  | a :: rest, s =>
    match gnuMatchOne a s with
    | some v => some (i, v)
    | none => gnuFindFrom (i + 1) rest s

/-- Model of `is_gnu_argument`, returning the index of the matched argument
and the inline value characters. -/
def is_gnu_argument (args : List Argument) (s : List Char) : Option (Nat × List Char) :=
  gnuFindFrom 0 args s

/-! ## Parse driver (argparse_parse, argparse.c 1066-1188)

The loop is a recursion over the unconsumed token suffix.  `APE_RETURN_IF_ERROR`
is modelled at each check site: when the error state has occurred, a fatal
category prints help and terminates the process (`stopExit`), a non-fatal one
returns to the caller (`stopReturn`). -/

/-- How the token loop stopped early. -/
inductive StopKind where
  | stopReturn
  | stopExit
deriving DecidableEq, Repr

/-- Result of the token loop: final parser and error state, the early-stop
kind (`none` when the loop consumed the whole vector and fell through to
required-argument validation), and whether help text was printed. -/
structure LoopOut where
  parser : ArgParser
  err : ErrState
  stopped : Option StopKind
  printedHelp : Bool

/-- Error-report name of the scalar branch:
`arg->short_name ? arg->short_name : arg->long_name`. -/
def argOptName (a : Argument) : String :=
  match a.short_name with
  | some s => s
  | none => match a.long_name with | some l => l | none => ""

/-- Result of processing one token of the loop: either stop (return or
exit, with the final printed-help flag), or continue after additionally
consuming `skip` tokens of the remaining vector. -/
inductive StepRes where
  | stop (parser : ArgParser) (err : ErrState) (kind : StopKind) (ph : Bool)
  | next (parser : ArgParser) (err : ErrState) (skip : Nat)

/-- The `APE_RETURN_IF_ERROR` check after a value-parsing call: stop on an
occurred error (exit and print help when fatal), continue otherwise. -/
def stepCheck (p : ArgParser) (e : ErrState) (ph : Bool) (skip : Nat) : StepRes :=
  if e.occurred then
    if argparse_error_is_fatal e then .stop p e .stopExit true
    else .stop p e .stopReturn ph
  else .next p e skip

/-- One iteration of the token loop of `argparse_parse`.  Branch order per
token: GNU-joined detection, reserved help spellings, registry lookup with
the boolean / list / scalar cases, unknown-token rejection. -/
def parseStep (p : ArgParser) (ph : Bool) (tok : String) (rest : List String) : StepRes :=
  match is_gnu_argument p.arguments tok.toList with
  | some iv =>
    let a := getArg p iv.1
    let r :=
      if a.type = .argBool then
        parse_single_value a (if iv.2 ≠ [] then String.mk iv.2 else "true")
      else if a.is_list then
        parse_list_with_delimiter a (String.mk iv.2)
      else
        parse_single_value a (String.mk iv.2)
    stepCheck (setArg p iv.1 r.1) r.2 ph 0
  | none =>
    if is_help_argument tok then
      .stop { p with help_requested := true }
        (apeSet .helpRequested 0 "" "Help requested by user.") .stopReturn true
    else
      let f := argparse_hash_find_argument p tok
      match f.1 with
      | some i =>
        let a := getArg p i
        if a.type = .argBool then
          let r := parse_single_value a ""
          stepCheck (setArg p i r.1) r.2 ph 0
        else if a.is_list then
          let r := parse_list_values p i rest
          stepCheck r.parser r.err ph r.consumed
        else
          match rest with
          | next :: _ =>
            let ia := argparse_hash_is_argument p next
            if ia.1 = false then
              let r := parse_single_value a next
              stepCheck (setArg p i r.1) r.2 ph 1
            else
              .stop p (apeSet .synErr EINVAL (argOptName a) "Option requires a value.")
                .stopExit true
          | [] =>
            .stop p (apeSet .synErr EINVAL (argOptName a)
              "Option requires a value but none provided.") .stopExit true
      | none =>
        .stop p (apeSet .synErr EINVAL tok "Unexpected value (did you forget an option?).")
          .stopExit true

/-- Token loop of `argparse_parse`: iterate `parseStep` over the vector.
The fuel parameter only bounds recursion depth: every iteration consumes at
least one token, so fuel equal to the token count (as passed by
`parseLoopOf`) never runs out. -/
def parseLoop (p : ArgParser) (err : ErrState) (ph : Bool) : Nat → List String → LoopOut
  | _, [] => ⟨p, err, none, ph⟩
  | 0, _ :: _ => ⟨p, err, none, ph⟩
  | fuel + 1, tok :: rest =>
    match parseStep p ph tok rest with
    | .stop p2 e k ph2 => ⟨p2, e, some k, ph2⟩
    | .next p2 e skip => parseLoop p2 e ph fuel (rest.drop skip)

/-- Required-argument validation (argparse.c 1173-1187): declaration-order
scan, first definition with `required && !set` yields its report name. -/
def validateRequired : List Argument → Option String
  | [] => none
  | a :: rest => if a.required ∧ ¬ a.set then some (argReqName a) else validateRequired rest

/-- Observable outcome of `argparse_parse`: final parser and error state,
whether the process was terminated by `exit(EXIT_FAILURE)`, and whether help
text was printed. -/
structure ParseOutcome where
  parser : ArgParser
  err : ErrState
  exited : Bool
  printedHelp : Bool

/-- Token loop of a full `argparse_parse` call: the program name is stored
from `argv[0]`, the error state starts cleared, and the loop runs over the
tokens after the program name. -/
def parseLoopOf (p : ArgParser) (argv : List String) : LoopOut :=
  parseLoop { p with program_name := some (argv.headD "") } argparse_error_clear false
    (argv.drop 1).length (argv.drop 1)

/-- Model of `argparse_parse`.  `argc` is `argv.length`; `argc == 1` prints
help and signals the non-fatal help condition;  after a completed loop the
required-argument validation runs, and its failure is fatal (help printed,
process exited) with the `RequiredError` state set. -/
def argparse_parse (p : ArgParser) (argv : List String) : ParseOutcome :=
  if argv.length = 1 then
    ⟨{ p with program_name := some (argv.headD "") },
      apeSet .helpRequested 0 "" "No arguments provided, showing help.", false, true⟩
  else
    let lo := parseLoopOf p argv
    match lo.stopped with
    | some .stopExit => ⟨lo.parser, lo.err, true, lo.printedHelp⟩
    | some .stopReturn => ⟨lo.parser, lo.err, false, lo.printedHelp⟩
    | none =>
      match validateRequired lo.parser.arguments with
      | some nm =>
        ⟨lo.parser, apeSet .requiredErr EINVAL nm "Required argument not provided.", true, true⟩
      | none => ⟨lo.parser, lo.err, false, lo.printedHelp⟩

/-! ## Typed accessors (argparse.c 1190-1225) -/

/-- Model of `argparse_get_bool`: the stored value only when the argument
exists and is set, `false` otherwise. -/
def argparse_get_bool (p : ArgParser) (name : String) : Bool :=
  match (argparse_hash_find_argument p name).1 with
  | some i =>
    let a := getArg p i
    if a.set then (match a.value with | .vBool b => b | _ => false) else false
  | none => false

/-- Model of `argparse_get_int`: `arg && arg->set ? *(int*)arg->value : 0`.
The wildcard models the (contract-violating) reinterpreted read of a
non-int value. -/
def argparse_get_int (p : ArgParser) (name : String) : Int :=
  match (argparse_hash_find_argument p name).1 with
  | some i =>
    let a := getArg p i
    if a.set then (match a.value with | .vInt n => n | _ => 0) else 0
  | none => 0

/-- Model of `argparse_get_double`. -/
def argparse_get_double (p : ArgParser) (name : String) : Rat :=
  match (argparse_hash_find_argument p name).1 with
  | some i =>
    let a := getArg p i
    if a.set then (match a.value with | .vDouble q => q | _ => 0) else 0
  | none => 0

/-- Model of `argparse_get_string` (`NULL` becomes `none`). -/
def argparse_get_string (p : ArgParser) (name : String) : Option String :=
  match (argparse_hash_find_argument p name).1 with
  | some i =>
    let a := getArg p i
    if a.set then (match a.value with | .vStr s => some s | _ => none) else none
  | none => none

/-- Model of `argparse_get_list_count`: chain length of the stored list when
the argument exists and is set, 0 otherwise. -/
def argparse_get_list_count (p : ArgParser) (name : String) : Nat :=
  match (argparse_hash_find_argument p name).1 with
  | some i =>
    let a := getArg p i
    if a.set then
      match a.value with
      | .vIntList l => l.length
      | .vDoubleList l => l.length
      | .vStrList l => l.length
      | _ => 0
    else 0
  | none => 0

/-! ## Caller-owned list copies and their release (argparse.c 1458-1468)

`argparse_free_int_list` takes `int** values`; the handle is modelled as
`Option (Option (List Int))`: the outer `Option` is the handle pointer
itself (`none` = NULL argument), the inner one the array pointer stored in
the cell (`none` = NULL, already released).  The second component of the
result records whether `free` was called on an array. -/

/-- Model of `argparse_free_int_list`: NULL-handle and NULL-cell calls are
no-ops; otherwise the array is freed and the cell is nulled. -/
def argparse_free_int_list (values : Option (Option (List Int))) :
    Option (Option (List Int)) × Bool :=
  match values with
  | none => (none, false)
  | some none => (some none, false)
  | some (some _) => (some none, true)

/-- Model of `argparse_free_double_list` (same shape as the int variant). -/
def argparse_free_double_list (values : Option (Option (List Rat))) :
    Option (Option (List Rat)) × Bool :=
  match values with
  | none => (none, false)
  | some none => (some none, false)
  | some (some _) => (some none, true)

/-! ## Statement-level predicates and fixtures used by the theorems -/

/-- All names registered by a registry, in declaration order (short before
long per argument). -/
def registryNames (args : List Argument) : List String :=
  args.flatMap argNames

/-- Name-to-index pairs a registry starting at index `i` contributes to the
lookup structures. -/
def pairsFrom : Nat → List Argument → List (String × Nat)
  | _, [] => []
  | i, a :: rest => (argNames a).map (fun n => (n, i)) ++ pairsFrom (i + 1) rest

/-- The capacity of a hash table is a power of two. -/
def IsPow2Cap (t : ArgHashTable) : Prop :=
  ∃ k, t.capacity = 2 ^ k

/-- The entry for key `k` with value `v` is stored in the bucket that the
lookup for `k` scans. -/
def TableHas (t : ArgHashTable) (k : String) (v : Nat) : Prop :=
  (⟨k, v⟩ : HashEntry) ∈ t.buckets (bucketIndex t k)

/-- Structural invariant of the modelled hash table: nonzero capacity, every
entry lives in the bucket its key hashes to, and no bucket chain repeats a
key. -/
def TableWF (t : ArgHashTable) : Prop :=
  1 ≤ t.capacity ∧
  (∀ i e, e ∈ t.buckets i → bucketIndex t e.key = i) ∧
  (∀ i, ((t.buckets i).map HashEntry.key).Nodup)

/-- Keys stored in a table, in bucket-traversal order. -/
def tableKeys (t : ArgHashTable) : List String :=
  (allEntries t).map HashEntry.key

/-- Statement-side decomposition of the token grammar accepted by
`get_safe_int` before the range check: optional whitespace, an optional
single sign, a nonempty digit run, optional trailing whitespace, with `v`
the exact mathematical value (sign applied to the decimal reading of the
digits). -/
def intTokenSpec (cs : List Char) (v : Int) : Prop :=
  ∃ ws1 sg ds ws2, cs = ws1 ++ sg ++ ds ++ ws2 ∧
    (∀ c ∈ ws1, isSpaceC c) ∧ (∀ c ∈ ws2, isSpaceC c) ∧
    (sg = [] ∨ sg = ['+'] ∨ sg = ['-']) ∧
    ds ≠ [] ∧ (∀ c ∈ ds, isDigitC c) ∧
    v = (if sg = ['-'] then -1 else 1) *
      ((Nat.ofDigits 10 ((ds.map digitVal).reverse) : Nat) : Int)

/-- Demo parser for the duplicate-registration evaluation: a fresh parser
followed by two definitions with the identical short name `-x`. -/
def dupStep1 : ArgParser × ErrState :=
  argparse_add_argument (argparse_new none 0) (some "-x") none .argInt none false .dvNone

/-- Second registration of the same short name `-x`. -/
def dupStep2 : ArgParser × ErrState :=
  argparse_add_argument dupStep1.1 (some "-x") none .argInt none false .dvNone

/-- Re-registration of the help short name on a fresh parser. -/
def dupHelp : ArgParser × ErrState :=
  argparse_add_argument (argparse_new none 0) (some "-h") none .argBool none false .dvNone

/-- Fixture registry for the round-trip claim: a fresh parser with a scalar
int argument `-n` registered with default value `d`. -/
def intFixture (d : Int) : ArgParser :=
  (argparse_add_argument (argparse_new none 0) (some "-n") none .argInt none false (.dvInt d)).1

/-- Fixture parser with one required int argument `-r` and one boolean `-b`
(used to exercise required-argument validation). -/
def reqFixture : ArgParser :=
  (argparse_add_argument
    (argparse_add_argument (argparse_new none 0) (some "-r") none .argInt none true .dvNone).1
    (some "-b") none .argBool none false .dvNone).1

/-- Required argument of `reqFixture` after a parse that never touches it. -/
def reqArgR : Argument :=
  { short_name := some "-r", long_name := none, help := none, type := .argInt,
    value := .vInt 0, required := true, set := false,
    suffix := Char.ofNat 0, delimiter := ' ' }

/-- Fixture int-list argument with delimiter `,` and an empty current list. -/
def listFixtureArg : Argument :=
  { short_name := some "-l", long_name := none, help := none, type := .argIntList,
    value := .vIntList [], required := false, set := false,
    suffix := Char.ofNat 0, delimiter := ',' }

/-- A 33-digit token followed by a delimiter and a short digit: every
sub-token is numeric, but the first one overflows the 32-byte parse buffer
of the C code. -/
def longListToken : String :=
  String.mk (List.replicate 33 '0' ++ [',', '5'])

/-- Fixture scalar int argument used by the conversion-category claims. -/
def scalarIntArg : Argument :=
  { short_name := some "-n", long_name := none, help := none, type := .argInt,
    value := .vInt 0, required := false, set := false,
    suffix := Char.ofNat 0, delimiter := ' ' }

/-- Fixture registry of two int arguments used by the lookup-agreement
witness. -/
def lookupFixture : List Argument :=
  [⟨some "-a", some "--alpha", none, .argInt, .vInt 0, false, false, Char.ofNat 0, ' '⟩,
   ⟨some "-b", some "--beta", none, .argInt, .vInt 0, false, false, Char.ofNat 0, ' '⟩]

/-- An error state reachable from the value-parsing helpers: either an
occurred error or the cleared state. -/
def ErrInv (e : ErrState) : Prop :=
  e.occurred = true ∨ e = argparse_error_clear

/-- Classification of a loop-step result: a plain return carries a set,
non-fatal error; an exit carries a set, fatal error; a continuation carries
the cleared error state. -/
def StepResOK : StepRes → Prop
  | .stop _ e .stopReturn _ => e.occurred = true ∧ argparse_error_is_fatal e = false
  | .stop _ e .stopExit _ => e.occurred = true ∧ argparse_error_is_fatal e = true
  | .next _ e _ => e = argparse_error_clear

/-- Statement-side description of the delimiter splitting: split on the
delimiter and drop the empty fragments (runs of consecutive delimiters
collapse). -/
def delimSubs (d : Char) (cs : List Char) : List (List Char) :=
  (cs.splitOn d).filter (fun t => !t.isEmpty)

/-! ## Helper lemmas -/

/-- Capacity after a resize. -/
theorem resize_capacity (t : ArgHashTable) :
    (hash_table_resize t).capacity = t.capacity * 2 := rfl

/-- Seed after a resize. -/
theorem resize_seed (t : ArgHashTable) : (hash_table_resize t).seed = t.seed := rfl

/-- Capacity after an insertion: doubled exactly when the load factor
exceeded the threshold. -/
theorem insert_capacity (t : ArgHashTable) (k : String) (v : Nat) :
    (argparse_hash_insert_internal t k v).capacity =
      if 4 * t.size > 3 * t.capacity then t.capacity * 2 else t.capacity := by
  unfold argparse_hash_insert_internal
  split <;> (dsimp only; split <;> rfl)

/-- Bitwise-and with a power-of-two capacity minus one is reduction modulo
the capacity. -/
theorem land_pow_two_eq_mod (x k : Nat) : Nat.land x (2 ^ k - 1) = x % 2 ^ k := by
  have h := Nat.and_pow_two_sub_one_eq_mod x k
  simpa [HAnd.hAnd, AndOp.and] using h

/-- Unfolding of the token loop on the empty vector. -/
theorem parseLoop_nil (p : ArgParser) (err : ErrState) (ph : Bool) (fuel : Nat) :
    parseLoop p err ph fuel [] = ⟨p, err, none, ph⟩ := by
  cases fuel <;> rw [parseLoop]

/-- Unfolding of the token loop on a nonempty vector with nonzero fuel. -/
theorem parseLoop_cons (p : ArgParser) (err : ErrState) (ph : Bool) (fuel : Nat) (tok : String)
    (rest : List String) :
    parseLoop p err ph (fuel + 1) (tok :: rest) =
      (match parseStep p ph tok rest with
       | .stop p2 e k ph2 => ⟨p2, e, some k, ph2⟩
       | .next p2 e skip => parseLoop p2 e ph fuel (rest.drop skip)) := by
  rw [parseLoop]

/-- A token that is not GNU-matched and is a reserved help spelling stops the
loop with the non-fatal help condition. -/
theorem parseStep_help (p : ArgParser) (ph : Bool) (tok : String) (rest : List String)
    (hg : is_gnu_argument p.arguments tok.toList = none)
    (hh : is_help_argument tok = true) :
    parseStep p ph tok rest =
      .stop { p with help_requested := true }
        (apeSet .helpRequested 0 "" "Help requested by user.") .stopReturn true := by
  rw [parseStep, hg, hh]
  simp

/-- A non-GNU, non-help token resolving to a non-bool non-list argument
whose following token is not a registered name and parses cleanly continues
the loop consuming that following token. -/
theorem parseStep_scalar_ok (p : ArgParser) (ph : Bool) (tok next : String)
    (rest2 : List String) (i : Nat) (a2 : Argument) (e2 : ErrState)
    (hg : is_gnu_argument p.arguments tok.toList = none)
    (hh : is_help_argument tok = false)
    (hf : (argparse_hash_find_argument p tok).1 = some i)
    (ht : (getArg p i).type ≠ .argBool)
    (hl : (getArg p i).is_list = false)
    (hn : (argparse_hash_is_argument p next).1 = false)
    (hp : parse_single_value (getArg p i) next = (a2, e2))
    (he : e2.occurred = false) :
    parseStep p ph tok (next :: rest2) = .next (setArg p i a2) e2 1 := by
  rw [parseStep, hg, hh]
  simp only [Bool.false_eq_true, if_false]
  rw [hf]
  simp only [hl, if_neg ht, Bool.false_eq_true, if_false, hn, if_true, hp, stepCheck, he]

theorem psv_errInv (a : Argument) (s : String) : ErrInv (parse_single_value a s).2 := by
  unfold parse_single_value
  dsimp only
  repeat' split
  all_goals first | exact Or.inl rfl | exact Or.inr rfl

theorem append_errInv (a : Argument) (e : ListElem) (err : ErrState) (h : ErrInv err) :
    ErrInv (append_to_list a e err).2 := by
  unfold append_to_list
  repeat' split
  all_goals first | exact Or.inl rfl | exact h

theorem plwdLoop_errInv (a : Argument) (d : Char) (err : ErrState) (count fuel : Nat)
    (cs : List Char) (h : ErrInv err) :
    ErrInv (plwdLoop a d err count fuel cs).2.1 := by
  induction fuel generalizing a err count cs with
  | zero => cases cs <;> exact h
  | succ n ih =>
    cases cs with
    | nil => exact h
    | cons c cs =>
      rw [plwdLoop]
      split
      · exact ih _ _ _ _ h
      · dsimp only
        repeat' split
        all_goals first
          | exact Or.inl rfl
          | exact ih _ _ _ _ (append_errInv _ _ _ h)

theorem plwd_errInv (a : Argument) (s : String) : ErrInv (parse_list_with_delimiter a s).2 := by
  unfold parse_list_with_delimiter
  dsimp only
  repeat' split
  all_goals first
    | exact Or.inl rfl
    | exact plwdLoop_errInv _ _ _ _ _ _ (Or.inr rfl)

theorem find_errInv (p : ArgParser) (s : String) :
    ErrInv (argparse_hash_find_argument p s).2 := by
  unfold argparse_hash_find_argument
  repeat' split
  all_goals first | exact Or.inl rfl | exact Or.inr rfl

theorem plvLoop_errInv (p : ArgParser) (aIdx : Nat) (err : ErrState) (vp c : Nat)
    (toks : List String) (h : ErrInv err) :
    ErrInv (plvLoop p aIdx err vp c toks).err := by
  induction toks generalizing p err vp c with
  | nil => exact h
  | cons tok rest ih =>
    rw [plvLoop]
    dsimp only
    repeat' split
    all_goals first
      | exact Or.inl rfl
      | exact find_errInv p tok
      | apply ih
      | skip
    all_goals first
      | exact plwd_errInv _ _
      | exact append_errInv _ _ _ (find_errInv p tok)

theorem plv_errInv (p : ArgParser) (aIdx : Nat) (toks : List String) :
    ErrInv (parse_list_values p aIdx toks).err := by
  unfold parse_list_values
  dsimp only
  repeat' split
  all_goals first
    | exact Or.inl rfl
    | exact plvLoop_errInv _ _ _ _ _ _ (Or.inr rfl)




theorem stepCheck_ok (p : ArgParser) (e : ErrState) (ph : Bool) (skip : Nat)
    (h : ErrInv e) : StepResOK (stepCheck p e ph skip) := by
  unfold stepCheck
  split
  · split
    · next hf => exact ⟨by assumption, hf⟩
    · next ho hf => exact ⟨ho, by simpa using hf⟩
  · next ho =>
    rcases h with h | h
    · exact absurd h ho
    · exact h

theorem parseStep_ok (p : ArgParser) (ph : Bool) (tok : String) (rest : List String) :
    StepResOK (parseStep p ph tok rest) := by
  unfold parseStep
  split
  · dsimp only
    exact stepCheck_ok _ _ _ _ (by split <;> first
      | exact psv_errInv _ _
      | exact plwd_errInv _ _
      | (split <;> first | exact psv_errInv _ _ | exact plwd_errInv _ _))
  · split
    · exact ⟨rfl, rfl⟩
    · dsimp only
      split
      · split
        · exact stepCheck_ok _ _ _ _ (psv_errInv _ _)
        · split
          · exact stepCheck_ok _ _ _ _ (plv_errInv _ _ _)
          · split
            · split
              · exact stepCheck_ok _ _ _ _ (psv_errInv _ _)
              · exact ⟨rfl, rfl⟩
            · exact ⟨rfl, rfl⟩
      · exact ⟨rfl, rfl⟩

theorem parseLoop_classify (fuel : Nat) (toks : List String) (p : ArgParser) (ph : Bool) :
    ((parseLoop p argparse_error_clear ph fuel toks).stopped = some .stopReturn →
      (parseLoop p argparse_error_clear ph fuel toks).err.occurred = true ∧
      argparse_error_is_fatal (parseLoop p argparse_error_clear ph fuel toks).err = false) ∧
    ((parseLoop p argparse_error_clear ph fuel toks).stopped = some .stopExit →
      (parseLoop p argparse_error_clear ph fuel toks).err.occurred = true ∧
      argparse_error_is_fatal (parseLoop p argparse_error_clear ph fuel toks).err = true) ∧
    ((parseLoop p argparse_error_clear ph fuel toks).stopped = none →
      (parseLoop p argparse_error_clear ph fuel toks).err = argparse_error_clear) := by
  induction fuel generalizing toks p ph with
  | zero =>
    cases toks <;>
      (rw [parseLoop]; exact ⟨nofun, nofun, fun _ => rfl⟩)
  | succ n ih =>
    cases toks with
    | nil =>
      rw [parseLoop]
      exact ⟨nofun, nofun, fun _ => rfl⟩
    | cons tok rest =>
      rw [parseLoop_cons]
      have hok := parseStep_ok p ph tok rest
      match hps : parseStep p ph tok rest with
      | .stop p2 e k ph2 =>
        rw [hps] at hok
        cases k with
        | stopReturn => exact ⟨fun _ => hok, nofun, nofun⟩
        | stopExit => exact ⟨nofun, fun _ => hok, nofun⟩
      | .next p2 e skip =>
        rw [hps] at hok
        rw [hok]
        exact ih (rest.drop skip) p2 ph


/-! ## Claim C3 -/

/-- Counterexample to claim C3 as stated: on an unknown-token failure (a
fatal `SyntaxError`), `argparse_parse` does not return to the caller with
the error state set — the `APE_RETURN_IF_ERROR` macro prints help and
terminates the process with `exit(EXIT_FAILURE)`. -/
theorem claim_C3_parse_exits_on_fatal :
    (argparse_parse (argparse_new none 0) ["prog", "bogus"]).exited = true ∧
    (argparse_parse (argparse_new none 0) ["prog", "bogus"]).err.category = .synErr := by
  exact ⟨by decide, by decide⟩

/-- Claim C3 (amended): fallible operations set the thread-local error state,
but `argparse_parse` returns to the caller only when no fatal error arose:
whenever the outcome is a process exit the error state is set and fatal, and
whenever parse returns the error state is non-fatal (success or
`HelpRequested`).  The fatal categories terminate the process instead of
returning. -/
theorem claim_C3_fatal_exits_nonfatal_returns (p : ArgParser) (argv : List String) :
    ((argparse_parse p argv).exited = true →
      (argparse_parse p argv).err.occurred = true ∧
      argparse_error_is_fatal (argparse_parse p argv).err = true) ∧
    ((argparse_parse p argv).exited = false →
      argparse_error_is_fatal (argparse_parse p argv).err = false) := by
  have hc := parseLoop_classify (argv.drop 1).length (argv.drop 1)
    { p with program_name := some (argv.headD "") } false
  rw [show parseLoop { p with program_name := some (argv.headD "") }
      argparse_error_clear false (argv.drop 1).length (argv.drop 1) = parseLoopOf p argv
    from rfl] at hc
  rw [argparse_parse]
  split
  · exact ⟨nofun, fun _ => rfl⟩
  · dsimp only
    split
    · next heq =>
      exact ⟨fun _ => hc.2.1 heq, nofun⟩
    · next heq =>
      exact ⟨nofun, fun _ => (hc.1 heq).2⟩
    · next heq =>
      split
      · exact ⟨fun _ => ⟨rfl, rfl⟩, nofun⟩
      · refine ⟨nofun, fun _ => ?_⟩
        rw [hc.2.2 heq]
        rfl



/-! ## Claim C10 -/

/-- Claim C10: releasing a numeric list copy is idempotent through its
handle: for a non-null handle holding an array, `argparse_free_int_list`
(and `argparse_free_double_list`) frees the array and nulls the cell; a call
with a null handle or an already-null cell is a no-op; hence a second
release through the same handle never frees again. -/
theorem claim_C10_free_list_idempotent (l : List Int) (q : List Rat)
    (c : Option (Option (List Int))) (cd : Option (Option (List Rat))) :
    argparse_free_int_list (some (some l)) = (some none, true) ∧
    argparse_free_int_list none = (none, false) ∧
    argparse_free_int_list (some none) = (some none, false) ∧
    (argparse_free_int_list (argparse_free_int_list c).1).2 = false ∧
    argparse_free_double_list (some (some q)) = (some none, true) ∧
    argparse_free_double_list none = (none, false) ∧
    argparse_free_double_list (some none) = (some none, false) ∧
    (argparse_free_double_list (argparse_free_double_list cd).1).2 = false := by
  refine ⟨rfl, rfl, rfl, ?_, rfl, rfl, rfl, ?_⟩
  · rcases c with _ | (_ | _) <;> rfl
  · rcases cd with _ | (_ | _) <;> rfl

/-! ## Claim C1 -/

/-- Claim C1 (divergence evaluation): registering `-x` twice succeeds both
times with no error of any category, the definition count grows from 2 to 3,
and the registry ends with two definitions named `-x`; re-registering the
help short name `-h` likewise appends a second help definition instead of
being a silent no-op.  The claimed `DuplicateArgumentError`/`ConfigError`
rejection does not exist in the code. -/
theorem claim_C1_duplicate_definition_accepted :
    dupStep2.2.occurred = false ∧
    dupStep2.2.category = .success ∧
    dupStep1.1.argument_count = 2 ∧
    dupStep2.1.argument_count = 3 ∧
    (dupStep2.1.arguments.filter (fun a => a.short_name = some "-x")).length = 2 ∧
    dupHelp.2.occurred = false ∧
    dupHelp.1.argument_count = 2 ∧
    (dupHelp.1.arguments.filter (fun a => a.short_name = some "-h")).length = 2 := by
  decide

/-! ## Claim C9 -/

/-- Claim C9: the bucket capacity is always a power of two — creation
initializes it to 256, a resize exactly doubles it, an insert preserves the
property, and under it the bucket index `hash & (capacity - 1)` equals
`hash % capacity` for every key. -/
theorem claim_C9_capacity_power_of_two (t : ArgHashTable) (h : IsPow2Cap t) :
    (∀ s, (argparse_hash_create_internal s).capacity = 256 ∧
      IsPow2Cap (argparse_hash_create_internal s)) ∧
    (hash_table_resize t).capacity = 2 * t.capacity ∧
    IsPow2Cap (hash_table_resize t) ∧
    (∀ k v, IsPow2Cap (argparse_hash_insert_internal t k v)) ∧
    (∀ k, bucketIndex t k = hashString k t.seed % t.capacity) := by
  obtain ⟨n, hn⟩ := h
  refine ⟨fun s => ⟨rfl, ⟨8, rfl⟩⟩, ?_, ?_, ?_, ?_⟩
  · rw [resize_capacity, Nat.mul_comm]
  · exact ⟨n + 1, by rw [resize_capacity, hn, Nat.pow_succ]⟩
  · intro k v
    rw [IsPow2Cap, insert_capacity]
    split
    · exact ⟨n + 1, by rw [hn, Nat.pow_succ]⟩
    · exact ⟨n, hn⟩
  · intro k
    rw [bucketIndex, hn, land_pow_two_eq_mod]

/-- Witness for claim C9 at a freshly created table. -/
theorem claim_C9_capacity_power_of_two_witness :
    IsPow2Cap (argparse_hash_create_internal 0) ∧
    (hash_table_resize (argparse_hash_create_internal 0)).capacity =
      2 * (argparse_hash_create_internal 0).capacity :=
  ⟨⟨8, rfl⟩, (claim_C9_capacity_power_of_two (argparse_hash_create_internal 0) ⟨8, rfl⟩).2.1⟩

/-! ## Claim C4 -/

/-- Counterexample to claim C4 as stated: for the scalar int argument `-n`
defined with default value 5, `argparse_get_int` before any parse returns 0,
not the default. -/
theorem claim_C4_default_not_returned :
    argparse_get_int (intFixture 5) "-n" = 0 ∧ (0 : Int) ≠ 5 := by
  constructor
  · decide
  · decide

/-- Claim C4 (amended): for a scalar int argument `-n` defined with default
D, `get_int` returns 0 before `parse` regardless of D (the stored default is
not exposed while the `set` flag is false), and returns the parsed value
after `parse` consumes the argument with a valid integer token. -/
theorem claim_C4_roundtrip (d : Int) (tok : String) (v : Int)
    (hv : get_safe_int tok = some v) :
    argparse_get_int (intFixture d) "-n" = 0 ∧
    (argparse_parse (intFixture d) ["prog", "-n", tok]).err.occurred = false ∧
    (argparse_parse (intFixture d) ["prog", "-n", tok]).exited = false ∧
    argparse_get_int (argparse_parse (intFixture d) ["prog", "-n", tok]).parser "-n" = v := by
  have h0 : tok ≠ "" := by
    intro e; rw [e] at hv; exact Option.noConfusion hv
  have h1 : tok ≠ "-h" := by
    intro e; rw [e] at hv
    rw [show get_safe_int "-h" = none from by decide] at hv
    exact Option.noConfusion hv
  have h2 : tok ≠ "--help" := by
    intro e; rw [e] at hv
    rw [show get_safe_int "--help" = none from by decide] at hv
    exact Option.noConfusion hv
  have h3 : tok ≠ "-n" := by
    intro e; rw [e] at hv
    rw [show get_safe_int "-n" = none from by decide] at hv
    exact Option.noConfusion hv
  have hfix : intFixture d =
      ⟨[⟨some "-h", some "--help", some "Show this help message and exit", .argBool,
          .vBool false, false, false, Char.ofNat 0, ' '⟩,
        ⟨some "-n", none, none, .argInt, .vInt d, false, false, Char.ofNat 0, ' '⟩],
        none, none, false, true, none, 2, false, 0⟩ := rfl
  set P : ArgParser :=
    ⟨[⟨some "-h", some "--help", some "Show this help message and exit", .argBool,
        .vBool false, false, false, Char.ofNat 0, ' '⟩,
      ⟨some "-n", none, none, .argInt, .vInt d, false, false, Char.ofNat 0, ' '⟩],
      some "prog", none, false, true, none, 2, false, 0⟩ with hP
  have a2def : parse_single_value (getArg P 1) tok =
      (⟨some "-n", none, none, .argInt, .vInt v, false, true, Char.ofNat 0, ' '⟩,
        argparse_error_clear) := by
    simp [parse_single_value, getArg, Argument.is_list, is_list_type, hP, hv]
  have hstep : parseStep P false "-n" [tok] =
      .next (setArg P 1 ⟨some "-n", none, none, .argInt, .vInt v, false, true, Char.ofNat 0, ' '⟩)
        argparse_error_clear 1 := by
    refine parseStep_scalar_ok P false "-n" tok [] 1 _ _ ?_ (by decide) ?_ ?_ ?_ ?_ a2def rfl
    · simp [is_gnu_argument, gnuFindFrom, gnuMatchOne, hP]
    · simp [argparse_hash_find_argument, linearFindFrom, hP]
    · simp [getArg, hP]
    · simp [getArg, hP, Argument.is_list, is_list_type]
    · simp [argparse_hash_is_argument, argparse_hash_find_argument, linearFindFrom, hP,
        h0, Ne.symm h1, Ne.symm h2, Ne.symm h3]
  have hloop : parseLoopOf (intFixture d) ["prog", "-n", tok] =
      ⟨⟨[⟨some "-h", some "--help", some "Show this help message and exit", .argBool,
            .vBool false, false, false, Char.ofNat 0, ' '⟩,
          ⟨some "-n", none, none, .argInt, .vInt v, false, true, Char.ofNat 0, ' '⟩],
          some "prog", none, false, true, none, 2, false, 0⟩,
        argparse_error_clear, none, false⟩ := by
    rw [parseLoopOf, hfix]
    show parseLoop P argparse_error_clear false 2 ["-n", tok] = _
    rw [parseLoop_cons, hstep]
    show parseLoop _ _ _ 1 ([tok].drop 1) = _
    rw [show ([tok].drop 1) = [] from rfl, parseLoop_nil]
    simp [setArg, hP]
  have hout : argparse_parse (intFixture d) ["prog", "-n", tok] =
      ⟨⟨[⟨some "-h", some "--help", some "Show this help message and exit", .argBool,
            .vBool false, false, false, Char.ofNat 0, ' '⟩,
          ⟨some "-n", none, none, .argInt, .vInt v, false, true, Char.ofNat 0, ' '⟩],
          some "prog", none, false, true, none, 2, false, 0⟩,
        argparse_error_clear, false, false⟩ := by
    rw [argparse_parse]
    rw [if_neg (by norm_num)]
    rw [hloop]
    simp [validateRequired]
  refine ⟨by rw [hfix]; rfl, ?_, ?_, ?_⟩
  · simp [hout, argparse_error_clear]
  · simp [hout]
  · simp [hout, argparse_get_int, argparse_hash_find_argument, linearFindFrom, getArg]

/-- Witness for the amended claim C4 at default 5 and token `"37"`. -/
theorem claim_C4_roundtrip_witness :
    get_safe_int "37" = some 37 ∧
    (argparse_get_int (intFixture 5) "-n" = 0 ∧
     (argparse_parse (intFixture 5) ["prog", "-n", "37"]).err.occurred = false ∧
     (argparse_parse (intFixture 5) ["prog", "-n", "37"]).exited = false ∧
     argparse_get_int (argparse_parse (intFixture 5) ["prog", "-n", "37"]).parser "-n" = 37) :=
  ⟨by decide, claim_C4_roundtrip 5 "37" 37 (by decide)⟩

/-! ## Claim C6 -/

/-- Counterexample to claim C6 as stated: with `--help` present in the
vector but preceded by an unknown token, parse fails with `SyntaxError` and
terminates the process before ever reaching the help token — the
`HelpRequested` condition is not signalled. -/
theorem claim_C6_help_not_reached_after_bad_token :
    (argparse_parse (argparse_new none 0) ["prog", "zzz", "--help"]).exited = true ∧
    (argparse_parse (argparse_new none 0) ["prog", "zzz", "--help"]).err.category = .synErr ∧
    (argparse_parse (argparse_new none 0) ["prog", "zzz", "--help"]).err.argName = "zzz" ∧
    (argparse_parse (argparse_new none 0) ["prog", "zzz", "--help"]).parser.help_requested
      = false := by
  refine ⟨by decide, by decide, by decide, by decide⟩

/-- Claim C6 (amended): when a reserved help spelling is the first token the
loop reaches (in particular the first token after the program name) and it
is not captured by GNU-joined matching, parse renders help, signals the
non-fatal `HelpRequested` condition, returns without exiting, and
required-argument validation never runs (the outcome is `HelpRequested` for
every parser, including parsers with required-but-unset definitions). -/
theorem claim_C6_help_short_circuit (p : ArgParser) (prog tok : String) (rest : List String)
    (hh : is_help_argument tok = true)
    (hg : is_gnu_argument p.arguments tok.toList = none) :
    (argparse_parse p (prog :: tok :: rest)).exited = false ∧
    (argparse_parse p (prog :: tok :: rest)).err.category = .helpRequested ∧
    (argparse_parse p (prog :: tok :: rest)).err.category ≠ .requiredErr ∧
    (argparse_parse p (prog :: tok :: rest)).printedHelp = true ∧
    (argparse_parse p (prog :: tok :: rest)).parser.help_requested = true := by
  have hout : argparse_parse p (prog :: tok :: rest) =
      ⟨{ p with program_name := some prog, help_requested := true },
        apeSet .helpRequested 0 "" "Help requested by user.", false, true⟩ := by
    rw [argparse_parse]
    rw [if_neg (by simp)]
    rw [parseLoopOf]
    simp only [List.headD, List.drop, List.length_cons]
    rw [parseLoop_cons]
    rw [parseStep_help _ _ _ _ (by simpa using hg) hh]
  rw [hout]
  refine ⟨rfl, rfl, by simp [apeSet], rfl, rfl⟩

/-- Witness for the amended claim C6 on a parser with a required-but-unset
argument. -/
theorem claim_C6_help_short_circuit_witness :
    is_help_argument "--help" = true ∧
    is_gnu_argument reqFixture.arguments "--help".toList = none ∧
    ((argparse_parse reqFixture ["prog", "--help"]).exited = false ∧
     (argparse_parse reqFixture ["prog", "--help"]).err.category = .helpRequested ∧
     (argparse_parse reqFixture ["prog", "--help"]).err.category ≠ .requiredErr ∧
     (argparse_parse reqFixture ["prog", "--help"]).printedHelp = true ∧
     (argparse_parse reqFixture ["prog", "--help"]).parser.help_requested = true) :=
  ⟨by decide, by decide,
    claim_C6_help_short_circuit reqFixture "prog" "--help" [] (by decide) (by decide)⟩

/-! ## Claim C8 -/

/-- The required-argument scan equals a declaration-order first find of a
required-but-unset definition, reported under its short-then-long name. -/
theorem validateRequired_eq_find (args : List Argument) :
    validateRequired args =
      (args.find? (fun a => a.required && !a.set)).map argReqName := by
  induction args with
  | nil => rfl
  | cons a rest ih =>
    rw [validateRequired, List.find?]
    by_cases h : a.required ∧ ¬ a.set
    · rw [if_pos h]
      have : (a.required && !a.set) = true := by
        simp [h.1, h.2]
      rw [this]
      rfl
    · rw [if_neg h]
      have : (a.required && !a.set) = false := by
        rcases Decidable.not_and_iff_or_not.1 h with h1 | h1 <;> simp at h1 <;> simp [h1]
      rw [this]
      exact ih

/-- Claim C8: if the token loop consumes the whole vector without early
termination, parse scans the definitions in declaration order; the first one
with `required` true and `set` false makes parse fail with `RequiredError`
naming it (short name preferred), and when no such definition exists parse
succeeds with a cleared error state. -/
theorem claim_C8_required_validation (p : ArgParser) (argv : List String)
    (hlen : argv.length ≠ 1)
    (hdone : (parseLoopOf p argv).stopped = none) :
    (∀ a, (parseLoopOf p argv).parser.arguments.find? (fun x => x.required && !x.set)
        = some a →
      argparse_parse p argv =
        ⟨(parseLoopOf p argv).parser,
          apeSet .requiredErr EINVAL (argReqName a) "Required argument not provided.",
          true, true⟩) ∧
    ((parseLoopOf p argv).parser.arguments.find? (fun x => x.required && !x.set) = none →
      argparse_parse p argv =
        ⟨(parseLoopOf p argv).parser, argparse_error_clear, false,
          (parseLoopOf p argv).printedHelp⟩) := by
  have hcl := (parseLoop_classify (argv.drop 1).length (argv.drop 1)
    { p with program_name := some (argv.headD "") } false).2.2
  rw [show parseLoop { p with program_name := some (argv.headD "") }
      argparse_error_clear false (argv.drop 1).length (argv.drop 1) = parseLoopOf p argv
    from rfl] at hcl
  rw [argparse_parse, if_neg hlen]
  dsimp only
  rw [hdone]
  rw [validateRequired_eq_find]
  constructor
  · intro a hfind
    rw [hfind]
    rfl
  · intro hfind
    rw [hfind]
    dsimp only [Option.map]
    rw [hcl hdone]

/-- Witness for claim C8: required `-r` unset after `[prog, -b]` yields the
`RequiredError` outcome naming `-r`. -/
theorem claim_C8_required_validation_witness :
    (["prog", "-b"] : List String).length ≠ 1 ∧
    (parseLoopOf reqFixture ["prog", "-b"]).stopped = none ∧
    ((parseLoopOf reqFixture ["prog", "-b"]).parser.arguments.find?
        (fun x => x.required && !x.set) = some reqArgR ∧
     argparse_parse reqFixture ["prog", "-b"] =
       ⟨(parseLoopOf reqFixture ["prog", "-b"]).parser,
         apeSet .requiredErr EINVAL (argReqName reqArgR) "Required argument not provided.",
         true, true⟩) :=
  ⟨by decide, by decide,
    by decide,
    (claim_C8_required_validation reqFixture ["prog", "-b"] (by decide) (by decide)).1
      reqArgR (by decide)⟩

/-! ## Claim C5 -/

theorem space_not_digit (c : Char) (h : isSpaceC c = true) : isDigitC c = false := by
  unfold isSpaceC at h
  simp only [Bool.or_eq_true, decide_eq_true_eq] at h
  rcases h with ((((h | h) | h) | h) | h) | h <;> subst h <;> decide

theorem digit_not_space (c : Char) (h : isDigitC c = true) : isSpaceC c = false := by
  by_contra hs
  simp only [Bool.not_eq_false] at hs
  rw [space_not_digit c hs] at h
  exact Bool.noConfusion h

theorem digit_ne_sign (c : Char) (h : isDigitC c = true) : c ≠ '-' ∧ c ≠ '+' := by
  constructor <;> (intro e; subst e; exact Bool.noConfusion h)

theorem dropWhile_append_all (p : Char → Bool) (l1 l2 : List Char)
    (h1 : ∀ c ∈ l1, p c = true)
    (h2 : ∀ h t, l2 = h :: t → p h = false) :
    (l1 ++ l2).dropWhile p = l2 := by
  induction l1 with
  | nil =>
    cases l2 with
    | nil => rfl
    | cons h t => simp [List.dropWhile_cons, h2 h t rfl]
  | cons c cs ih =>
    simp only [List.cons_append, List.dropWhile_cons, h1 c (by simp)]
    exact ih (fun c hc => h1 c (by simp [hc]))

theorem takeWhile_append_all (p : Char → Bool) (l1 l2 : List Char)
    (h1 : ∀ c ∈ l1, p c = true)
    (h2 : ∀ h t, l2 = h :: t → p h = false) :
    (l1 ++ l2).takeWhile p = l1 := by
  induction l1 with
  | nil =>
    cases l2 with
    | nil => rfl
    | cons h t => simp [List.takeWhile_cons, h2 h t rfl]
  | cons c cs ih =>
    simp only [List.cons_append, List.takeWhile_cons, h1 c (by simp)]
    simp only [if_true]
    rw [ih (fun c hc => h1 c (by simp [hc]))]

theorem digitsToNat_eq_ofDigits (ds : List Char) :
    digitsToNat ds = Nat.ofDigits 10 ((ds.map digitVal).reverse) := by
  suffices h : ∀ acc, ds.foldl (fun a c => 10 * a + digitVal c) acc =
      acc * 10 ^ ds.length + Nat.ofDigits 10 ((ds.map digitVal).reverse) by
    have := h 0
    simpa [digitsToNat] using this
  induction ds with
  | nil => intro acc; simp [Nat.ofDigits]
  | cons c cs ih =>
    intro acc
    simp only [List.foldl_cons, ih, List.map_cons, List.reverse_cons, List.length_cons]
    rw [Nat.ofDigits_append]
    simp [Nat.ofDigits]
    ring

theorem sign_match_eq (c : Char) (r : List Char) :
    (match c :: r with
      | '-' :: r => ((true : Bool), r)
      | '+' :: r => (false, r)
      | r => (false, r)) =
    (if c = '-' then ((true : Bool), r) else if c = '+' then (false, r) else (false, c :: r)) := by
  split
  case h_1 r1 heq =>
    obtain ⟨e1, e2⟩ : c = '-' ∧ r = r1 := by injection heq with e1 e2; exact ⟨e1, e2⟩
    subst e1; subst e2
    rw [if_pos rfl]
  case h_2 r1 heq =>
    obtain ⟨e1, e2⟩ : c = '+' ∧ r = r1 := by injection heq with e1 e2; exact ⟨e1, e2⟩
    subst e1; subst e2
    rw [if_neg (by decide), if_pos rfl]
  case h_3 hn1 hn2 =>
    have e1 : c ≠ '-' := fun e => hn1 r (by rw [e])
    have e2 : c ≠ '+' := fun e => hn2 r (by rw [e])
    rw [if_neg e1, if_neg e2]

theorem gsi_forward (s : String) (v : Int) (h : get_safe_int s = some v) :
    intTokenSpec s.toList v ∧ INT_MIN ≤ v ∧ v ≤ INT_MAX := by
  unfold get_safe_int at h
  cases hc : s.toList.dropWhile isSpaceC with
  | nil => rw [hc] at h; exact Option.noConfusion h
  | cons c r =>
    rw [hc] at h
    dsimp only at h
    rw [sign_match_eq] at h
    have hsplit : s.toList = s.toList.takeWhile isSpaceC ++ (c :: r) := by
      rw [← hc, List.takeWhile_append_dropWhile]
    have hws1 : ∀ x ∈ s.toList.takeWhile isSpaceC, isSpaceC x = true :=
      fun x hx => List.mem_takeWhile_imp hx
    by_cases h1 : c = '-'
    · subst h1
      rw [if_pos rfl] at h
      dsimp only at h
      simp only [eq_self_iff_true, if_true] at h
      split_ifs at h with hds htail hrange
      injection h with hv
      push_neg at hrange
      refine ⟨⟨s.toList.takeWhile isSpaceC, ['-'], r.takeWhile isDigitC,
        r.dropWhile isDigitC, ?_, hws1, ?_, Or.inr (Or.inr rfl), hds, ?_, ?_⟩, ?_, ?_⟩
      · conv_lhs => rw [hsplit]
        simp only [List.append_assoc, List.cons_append, List.nil_append, List.singleton_append]
        rw [List.takeWhile_append_dropWhile]
      · intro x hx
        have := List.all_eq_true.1 (by simpa using htail) x hx
        simpa using this
      · intro x hx
        exact List.mem_takeWhile_imp hx
      · rw [← hv]
        rw [if_pos rfl]
        simp only [digitsToNat_eq_ofDigits]
        ring
      · rw [← hv]
        simpa [INT_MIN] using hrange.2
      · rw [← hv]
        simpa [INT_MAX] using hrange.1
    · by_cases h2 : c = '+'
      · subst h2
        rw [if_neg h1, if_pos rfl] at h
        dsimp only at h
        simp only [Bool.false_eq_true, if_false] at h
        split_ifs at h with hds htail hrange
        injection h with hv
        push_neg at hrange
        refine ⟨⟨s.toList.takeWhile isSpaceC, ['+'], r.takeWhile isDigitC,
          r.dropWhile isDigitC, ?_, hws1, ?_, Or.inr (Or.inl rfl), hds, ?_, ?_⟩, ?_, ?_⟩
        · conv_lhs => rw [hsplit]
          simp only [List.append_assoc, List.cons_append, List.nil_append, List.singleton_append]
          rw [List.takeWhile_append_dropWhile]
        · intro x hx
          have := List.all_eq_true.1 (by simpa using htail) x hx
          simpa using this
        · intro x hx
          exact List.mem_takeWhile_imp hx
        · rw [← hv]
          rw [if_neg (by decide : ¬(['+'] : List Char) = ['-'])]
          simp only [digitsToNat_eq_ofDigits]
          ring
        · rw [← hv]
          simpa [INT_MIN] using hrange.2
        · rw [← hv]
          simpa [INT_MAX] using hrange.1
      · rw [if_neg h1, if_neg h2] at h
        dsimp only at h
        simp only [Bool.false_eq_true, if_false] at h
        split_ifs at h with hds htail hrange
        injection h with hv
        push_neg at hrange
        refine ⟨⟨s.toList.takeWhile isSpaceC, [], (c :: r).takeWhile isDigitC,
          (c :: r).dropWhile isDigitC, ?_, hws1, ?_, Or.inl rfl, hds, ?_, ?_⟩, ?_, ?_⟩
        · conv_lhs => rw [hsplit]
          simp only [List.append_assoc, List.cons_append, List.nil_append]
          rw [List.takeWhile_append_dropWhile]
        · intro x hx
          have := List.all_eq_true.1 (by simpa using htail) x hx
          simpa using this
        · intro x hx
          exact List.mem_takeWhile_imp hx
        · rw [← hv]
          rw [if_neg (by decide : ¬([] : List Char) = ['-'])]
          simp only [digitsToNat_eq_ofDigits]
          ring
        · rw [← hv]
          simpa [INT_MIN] using hrange.2
        · rw [← hv]
          simpa [INT_MAX] using hrange.1

theorem gsi_backward (s : String) (v : Int)
    (hspec : intTokenSpec s.toList v) (hmin : INT_MIN ≤ v) (hmax : v ≤ INT_MAX) :
    get_safe_int s = some v := by
  obtain ⟨ws1, sg, ds, ws2, heq, hws1, hws2, hsg, hdsne, hdsdig, hv⟩ := hspec
  rw [List.append_assoc, List.append_assoc] at heq
  obtain ⟨d0, ds', hds0⟩ : ∃ d0 ds', ds = d0 :: ds' := by
    cases ds with
    | nil => exact absurd rfl hdsne
    | cons a b => exact ⟨a, b, rfl⟩
  have hws2head : ∀ h t, ws2 = h :: t → isDigitC h = false := by
    intro x t hx
    exact space_not_digit x (hws2 x (by rw [hx]; simp))
  have htw : ds.takeWhile isDigitC = ds ∧ ds.dropWhile isDigitC = [] := by
    constructor
    · have := takeWhile_append_all isDigitC ds [] hdsdig (by intro a b hab; exact absurd hab (by simp))
      simpa using this
    · have := dropWhile_append_all isDigitC ds [] hdsdig (by intro a b hab; exact absurd hab (by simp))
      simpa using this
  have htake : (ds ++ ws2).takeWhile isDigitC = ds :=
    takeWhile_append_all isDigitC ds ws2 hdsdig hws2head
  have hdropd : (ds ++ ws2).dropWhile isDigitC = ws2 :=
    dropWhile_append_all isDigitC ds ws2 hdsdig hws2head
  have hall2 : ws2.all isSpaceC = true := List.all_eq_true.2 fun x hx => hws2 x hx
  rcases hsg with rfl | rfl | rfl
  · -- no sign
    have hdrop : s.toList.dropWhile isSpaceC = ds ++ ws2 := by
      rw [heq]
      have := dropWhile_append_all isSpaceC ws1 (ds ++ ws2) hws1 ?_
      · simpa using this
      · intro x t hx
        apply digit_not_space
        apply hdsdig
        rw [hds0] at hx ⊢
        simp only [List.cons_append] at hx
        injection hx with e1 _
        rw [e1]
        simp
    have hveq : v = ((digitsToNat ds : Nat) : Int) := by
      rw [hv, if_neg (by simp), digitsToNat_eq_ofDigits]
      ring
    unfold get_safe_int
    rw [hdrop, hds0]
    simp only [List.cons_append]
    rw [sign_match_eq]
    rw [if_neg (digit_ne_sign d0 (hdsdig d0 (by rw [hds0]; simp))).1,
        if_neg (digit_ne_sign d0 (hdsdig d0 (by rw [hds0]; simp))).2]
    dsimp only
    rw [show d0 :: (ds' ++ ws2) = ds ++ ws2 from by rw [hds0]; simp]
    rw [htake, hdropd]
    rw [if_neg hdsne, if_neg (by simp [hall2])]
    simp only [Bool.false_eq_true, if_false]
    rw [if_neg (by push_neg; rw [← hveq]; exact ⟨hmax, hmin⟩)]
    rw [hveq]
  · -- '+' sign
    have hdrop : s.toList.dropWhile isSpaceC = '+' :: (ds ++ ws2) := by
      rw [heq]
      have := dropWhile_append_all isSpaceC ws1 (['+'] ++ (ds ++ ws2)) hws1 ?_
      · simpa using this
      · intro x t hx
        simp only [List.singleton_append] at hx
        injection hx with e1 _
        rw [← e1]
        decide
    have hveq : v = ((digitsToNat ds : Nat) : Int) := by
      rw [hv, if_neg (by simp), digitsToNat_eq_ofDigits]
      ring
    unfold get_safe_int
    rw [hdrop]
    dsimp only
    rw [sign_match_eq]
    rw [if_neg (show ¬(('+' : Char) = '-') from by decide),
        if_pos (show ('+' : Char) = '+' from rfl)]
    dsimp only
    rw [htake, hdropd]
    rw [if_neg hdsne, if_neg (by simp [hall2])]
    simp only [Bool.false_eq_true, if_false]
    rw [if_neg (by push_neg; rw [← hveq]; exact ⟨hmax, hmin⟩)]
    rw [hveq]
  · -- '-' sign
    have hdrop : s.toList.dropWhile isSpaceC = '-' :: (ds ++ ws2) := by
      rw [heq]
      have := dropWhile_append_all isSpaceC ws1 (['-'] ++ (ds ++ ws2)) hws1 ?_
      · simpa using this
      · intro x t hx
        simp only [List.singleton_append] at hx
        injection hx with e1 _
        rw [← e1]
        decide
    have hveq : v = -((digitsToNat ds : Nat) : Int) := by
      rw [hv, if_pos rfl, digitsToNat_eq_ofDigits]
      ring
    unfold get_safe_int
    rw [hdrop]
    dsimp only
    rw [sign_match_eq]
    rw [if_pos (show ('-' : Char) = '-' from rfl)]
    dsimp only
    rw [htake, hdropd]
    rw [if_neg hdsne, if_neg (by simp [hall2])]
    simp only [eq_self_iff_true, if_true]
    rw [if_neg (by push_neg; rw [← hveq]; exact ⟨hmax, hmin⟩)]
    rw [hveq]


/-- Counterexample to claim C5 as stated: the out-of-range token
`"2147483648"` fails the conversion, and `parse_single_value` reports it as
`TypeError` (the single `APE_TYPE` failure path), not as the claimed
`RangeError`. -/
theorem claim_C5_overflow_reported_as_type_error :
    get_safe_int "2147483648" = none ∧
    (parse_single_value scalarIntArg "2147483648").2.category = .typeErr ∧
    (parse_single_value scalarIntArg "2147483648").2.category ≠ .rangeErr := by
  refine ⟨by decide, by decide, by decide⟩

/-- Claim C5 (amended): integer conversion trims leading and trailing
whitespace, rejects the empty-after-trim token, rejects trailing non-space
garbage, accepts exactly an optionally signed nonempty digit run whose exact
mathematical value (never clamped or truncated) lies in the signed 32-bit
range; every failed conversion — bad format and out-of-range alike — is
reported by the scalar parser as `TypeError` (out-of-range tokens do not get
`RangeError`), and a successful conversion stores the exact value. -/
theorem claim_C5_int_conversion (s : String) (v : Int) (a : Argument)
    (hty : a.type = .argInt) (hval : a.value ≠ .vNone) :
    (get_safe_int s = some v ↔ intTokenSpec s.toList v ∧ INT_MIN ≤ v ∧ v ≤ INT_MAX) ∧
    (get_safe_int s = none →
      (parse_single_value a s).2.category = .typeErr ∧
      (parse_single_value a s).2.occurred = true ∧
      (parse_single_value a s).1 = a) ∧
    (get_safe_int s = some v →
      parse_single_value a s = ({ a with value := .vInt v, set := true },
        argparse_error_clear)) := by
  have hlist : a.is_list = false := by
    rw [Argument.is_list, hty]
    rfl
  refine ⟨⟨gsi_forward s v, fun hh => gsi_backward s v hh.1 hh.2.1 hh.2.2⟩, ?_, ?_⟩
  · intro hnone
    unfold parse_single_value
    rw [hlist]
    simp only [Bool.false_eq_true, if_false]
    rw [hty]
    dsimp only
    rw [if_neg hval, hnone]
    exact ⟨rfl, rfl, rfl⟩
  · intro hsome
    unfold parse_single_value
    rw [hlist]
    simp only [Bool.false_eq_true, if_false]
    rw [hty]
    dsimp only
    rw [if_neg hval, hsome]

/-- Witness for the amended claim C5 at the token `" 42 "`. -/
theorem claim_C5_int_conversion_witness :
    scalarIntArg.type = .argInt ∧ scalarIntArg.value ≠ .vNone ∧
    ((get_safe_int " 42 " = some 42 ↔
        intTokenSpec " 42 ".toList 42 ∧ INT_MIN ≤ 42 ∧ (42 : Int) ≤ INT_MAX) ∧
     (get_safe_int " 42 " = none →
        (parse_single_value scalarIntArg " 42 ").2.category = .typeErr ∧
        (parse_single_value scalarIntArg " 42 ").2.occurred = true ∧
        (parse_single_value scalarIntArg " 42 ").1 = scalarIntArg) ∧
     (get_safe_int " 42 " = some 42 →
        parse_single_value scalarIntArg " 42 " =
          ({ scalarIntArg with value := .vInt 42, set := true }, argparse_error_clear))) :=
  ⟨rfl, by decide, claim_C5_int_conversion " 42 " 42 scalarIntArg rfl (by decide)⟩

/-! ## Claim C7 -/

theorem dropWhile_head_false (p : Char → Bool) (l : List Char) (h : Char) (t : List Char)
    (he : l.dropWhile p = h :: t) : p h = false := by
  induction l with
  | nil => exact absurd he (by simp)
  | cons c cs ih =>
    rw [List.dropWhile_cons] at he
    by_cases hp : p c
    · rw [if_pos hp] at he
      exact ih he
    · rw [if_neg hp] at he
      injection he with e1 _
      rw [← e1]
      exact Bool.of_not_eq_true hp

theorem delimSubs_nil (d : Char) : delimSubs d [] = [] := rfl

theorem delimSubs_cons_delim (d : Char) (cs : List Char) :
    delimSubs d (d :: cs) = delimSubs d cs := by
  unfold delimSubs
  show ((d :: cs).splitOnP (· == d)).filter _ = (cs.splitOnP (· == d)).filter _
  rw [List.splitOnP_cons, if_pos (by simp)]
  rw [List.filter_cons]
  simp

theorem delimSubs_cons_ne (d c : Char) (cs : List Char) (hcd : c ≠ d) :
    delimSubs d (c :: cs) =
      (c :: cs.takeWhile (fun x => x ≠ d)) :: delimSubs d (cs.dropWhile (fun x => x ≠ d)) := by
  have hall : ∀ x ∈ c :: cs.takeWhile (fun x => x ≠ d), ¬((· == d) x) := by
    intro x hx
    rcases List.mem_cons.1 hx with rfl | hx2
    · simp [hcd]
    · have := List.mem_takeWhile_imp hx2
      simp at this ⊢
      exact this
  cases hrest : cs.dropWhile (fun x => x ≠ d) with
  | nil =>
    have hcs : cs.takeWhile (fun x => x ≠ d) = cs := by
      conv_rhs => rw [← List.takeWhile_append_dropWhile (p := fun x => decide (x ≠ d)) (l := cs)]
      rw [hrest, List.append_nil]
    unfold delimSubs
    show ((c :: cs).splitOnP (· == d)).filter _ = _
    rw [show c :: cs = c :: cs.takeWhile (fun x => x ≠ d) from by rw [hcs]]
    rw [List.splitOnP_eq_single _ _ hall]
    rfl
  | cons h1 tail =>
    have hd1 : h1 = d := by
      have := dropWhile_head_false _ _ _ _ hrest
      simpa using this
    have hdecomp : c :: cs = (c :: cs.takeWhile (fun x => x ≠ d)) ++ (h1 :: tail) := by
      conv_lhs => rw [show cs = cs.takeWhile (fun x => x ≠ d) ++
        cs.dropWhile (fun x => x ≠ d) from (List.takeWhile_append_dropWhile _ _).symm]
      rw [hrest]
      rfl
    have hsep : (h1 == d) = true := by simp [hd1]
    unfold delimSubs
    show ((c :: cs).splitOnP (· == d)).filter _ = _
    rw [hdecomp, List.splitOnP_first _ _ hall h1 hsep tail]
    rw [List.filter_cons]
    simp only [List.isEmpty_cons, Bool.not_false, if_pos]
    rw [hd1]
    show _ :: (tail.splitOnP (· == d)).filter _ = _ :: delimSubs d (d :: tail)
    rw [delimSubs_cons_delim]
    rfl

theorem append_int_eq (a : Argument) (l : List Int) (n : Int) (err : ErrState)
    (hty : a.type = .argIntList) (hval : a.value = .vIntList l) :
    append_to_list a (.eInt n) err = ({ a with value := .vIntList (l ++ [n]) }, err) := by
  unfold append_to_list
  rw [if_neg (by rw [Argument.is_list, hty]; simp [is_list_type])]
  rw [hval]

theorem plwdLoop_int_spec (d : Char) (fuel : Nat) (cs : List Char) (hfuel : cs.length ≤ fuel)
    (a : Argument) (l : List Int) (err : ErrState) (count : Nat)
    (hty : a.type = .argIntList) (hval : a.value = .vIntList l) :
    (delimSubs d cs = [] → plwdLoop a d err count fuel cs = (a, err, count)) ∧
    (∀ vs, (delimSubs d cs).map (fun t => get_safe_int (String.mk t)) = vs.map some →
      (∀ t ∈ delimSubs d cs, t.length < 32) →
      plwdLoop a d err count fuel cs =
        ({ a with value := .vIntList (l ++ vs) }, err, count + vs.length)) ∧
    ((∀ t ∈ delimSubs d cs, t.length < 32) →
      (∃ t ∈ delimSubs d cs, get_safe_int (String.mk t) = none) →
      (plwdLoop a d err count fuel cs).2.1 =
        apeSet .typeErr EINVAL (argErrName a) "Invalid list value.") := by
  induction fuel generalizing cs a l err count with
  | zero =>
    have : cs = [] := List.length_eq_zero.1 (Nat.le_zero.1 hfuel)
    subst this
    refine ⟨fun _ => rfl, fun vs hm _ => ?_, fun _ hex => ?_⟩
    · rw [delimSubs_nil] at hm
      have hvz : vs = [] := by
        cases vs with
        | nil => rfl
        | cons x xs => exact absurd hm.symm (by simp)
      subst hvz
      rw [plwdLoop]
      rw [List.append_nil, ← hval]
      rfl
    · rw [delimSubs_nil] at hex
      simp at hex
  | succ n ih =>
    cases cs with
    | nil =>
      refine ⟨fun _ => rfl, fun vs hm _ => ?_, fun _ hex => ?_⟩
      · rw [delimSubs_nil] at hm
        have hvz : vs = [] := by
          cases vs with
          | nil => rfl
          | cons x xs => exact absurd hm.symm (by simp)
        subst hvz
        rw [plwdLoop]
        rw [List.append_nil, ← hval]
        rfl
      · rw [delimSubs_nil] at hex
        simp at hex
    | cons c cs =>
      by_cases hcd : c = d
      · subst hcd
        have hstep : plwdLoop a c err count (n + 1) (c :: cs) = plwdLoop a c err count n cs := by
          rw [plwdLoop, if_pos rfl]
        have hsub := delimSubs_cons_delim c cs
        have ihx := ih cs (by simp only [List.length_cons] at hfuel; omega) a l err count hty hval
        rw [hstep, hsub]
        exact ihx
      · have hsub := delimSubs_cons_ne d c cs hcd
        have hstep : plwdLoop a d err count (n + 1) (c :: cs) =
            (let tok := c :: cs.takeWhile (fun x => x ≠ d)
             let rest := cs.dropWhile (fun x => x ≠ d)
             if 32 ≤ tok.length then
               (a, apeSet .rangeErr ERANGE (argErrName a) "List value too long for integer parsing.",
                 count)
             else
               match get_safe_int (String.mk tok) with
               | some m =>
                 let r := append_to_list a (.eInt m) err
                 plwdLoop r.1 d r.2 (count + 1) n rest
               | none => (a, apeSet .typeErr EINVAL (argErrName a) "Invalid list value.", count)) := by
          rw [plwdLoop, if_neg hcd]
          dsimp only
          rw [hty]
        have hrestlen : (cs.dropWhile (fun x => x ≠ d)).length ≤ n := by
          have h1 := (List.dropWhile_sublist (l := cs) (fun x => decide (x ≠ d))).length_le
          have h2 : cs.length ≤ n := by simpa using hfuel
          omega
        refine ⟨fun hnil => ?_, fun vs hm hlen => ?_, fun hlen hex => ?_⟩
        · rw [hsub] at hnil
          exact absurd hnil (by simp)
        · rw [hsub] at hm hlen
          rw [List.map_cons] at hm
          obtain ⟨v0, vs', rfl⟩ : ∃ v0 vs', vs = v0 :: vs' := by
            cases vs with
            | nil => exact absurd hm (by simp)
            | cons x xs => exact ⟨x, xs, rfl⟩
          rw [List.map_cons] at hm
          have hv0 : get_safe_int (String.mk (c :: cs.takeWhile (fun x => x ≠ d))) = some v0 := by
            injection hm
          have hvs' : (delimSubs d (cs.dropWhile (fun x => x ≠ d))).map
              (fun t => get_safe_int (String.mk t)) = vs'.map some := by
            injection hm
          rw [hstep]
          dsimp only
          rw [if_neg (by push_neg; exact hlen _ (by simp)), hv0]
          dsimp only
          rw [append_int_eq a l v0 err hty hval]
          have ihx := (ih (cs.dropWhile (fun x => x ≠ d)) hrestlen
            ({ a with value := .vIntList (l ++ [v0]) }) (l ++ [v0]) err (count + 1)
            hty rfl).2.1 vs' hvs' (fun t ht => hlen t (List.mem_cons_of_mem _ ht))
          rw [ihx]
          simp [List.append_assoc]
          omega
        · rw [hsub] at hlen hex
          rw [hstep]
          dsimp only
          rw [if_neg (by push_neg; exact hlen _ (by simp))]
          rcases hex with ⟨t, ht, hbad⟩
          rcases List.mem_cons.1 ht with rfl | htail
          · rw [hbad]
          · cases hv0 : get_safe_int (String.mk (c :: cs.takeWhile (fun x => x ≠ d))) with
            | none => rfl
            | some v0 =>
              dsimp only
              rw [append_int_eq a l v0 err hty hval]
              exact (ih (cs.dropWhile (fun x => x ≠ d)) hrestlen
                ({ a with value := .vIntList (l ++ [v0]) }) (l ++ [v0]) err (count + 1)
                hty rfl).2.2 (fun t2 ht2 => hlen t2 (List.mem_cons_of_mem _ ht2)) ⟨t, htail, hbad⟩

/-- Counterexample to claim C7 as stated: every sub-token of
`longListToken` (33 zeros, a comma, a 5) parses with the scalar int parser,
so the claim predicts the elements are appended; the code instead rejects
the 33-character sub-token with `RangeError` (32-byte parse buffer) before
the scalar parser runs, appending nothing — and the error is not the
`TypeError` the claim allows for invalid sub-tokens either. -/
theorem claim_C7_long_subtoken_hits_range_error :
    get_safe_int (String.mk (List.replicate 33 '0')) = some 0 ∧
    get_safe_int "5" = some 5 ∧
    (delimSubs ',' longListToken.toList).map (fun t => get_safe_int (String.mk t)) =
      [some 0, some 5] ∧
    (parse_list_with_delimiter listFixtureArg longListToken).2.category = .rangeErr ∧
    (parse_list_with_delimiter listFixtureArg longListToken).2.category ≠ .typeErr ∧
    (parse_list_with_delimiter listFixtureArg longListToken).1.value = .vIntList [] ∧
    (parse_list_with_delimiter listFixtureArg longListToken).1.set = false := by
  refine ⟨by decide, by decide, by decide, by decide, by decide, by decide, by decide⟩

/-- Claim C7 (amended): for an int-list argument with a configured
delimiter, splitting collapses delimiter runs (empty sub-tokens are
skipped); when every sub-token is shorter than 32 characters, the sub-tokens
are parsed with the scalar int parser and all successfully parsed elements
are appended in left-to-right order (`"1,2,,3"` with delimiter `,` yields
exactly `[1, 2, 3]`), an invalid sub-token fails with `TypeError`, and zero
extracted sub-tokens fail with `SyntaxError`.  Sub-tokens of 32 characters
or more are instead rejected with `RangeError` before the scalar parser
runs (see the counterexample). -/
theorem claim_C7_delimiter_splitting (a : Argument) (s : String) (l0 : List Int)
    (hty : a.type = .argIntList) (hval : a.value = .vIntList l0)
    (hdel : a.delimiter ≠ Char.ofNat 0) :
    (delimSubs a.delimiter s.toList = [] →
      parse_list_with_delimiter a s =
        (a, apeSet .synErr EINVAL (argErrName a) "List requires values.")) ∧
    (∀ vs, (delimSubs a.delimiter s.toList).map (fun t => get_safe_int (String.mk t)) =
        vs.map some →
      (∀ t ∈ delimSubs a.delimiter s.toList, t.length < 32) →
      delimSubs a.delimiter s.toList ≠ [] →
      parse_list_with_delimiter a s =
        ({ a with value := .vIntList (l0 ++ vs), set := true }, argparse_error_clear)) ∧
    ((∀ t ∈ delimSubs a.delimiter s.toList, t.length < 32) →
      (∃ t ∈ delimSubs a.delimiter s.toList, get_safe_int (String.mk t) = none) →
      (parse_list_with_delimiter a s).2.category = .typeErr) ∧
    parse_list_with_delimiter listFixtureArg "1,2,,3" =
      ({ listFixtureArg with value := .vIntList [1, 2, 3], set := true },
        argparse_error_clear) := by
  have hspec := plwdLoop_int_spec a.delimiter s.toList.length s.toList le_rfl a l0
    argparse_error_clear 0 hty hval
  have hwrap : parse_list_with_delimiter a s =
      (let r := plwdLoop a a.delimiter argparse_error_clear 0 s.toList.length s.toList
       if r.2.1.occurred then (r.1, r.2.1)
       else if r.2.2 = 0 then (r.1, apeSet .synErr EINVAL (argErrName a) "List requires values.")
       else ({ r.1 with set := true }, r.2.1)) := by
    unfold parse_list_with_delimiter
    rw [if_neg (by rw [Argument.is_list, hty]; simp [is_list_type])]
    rw [if_neg hdel]
  refine ⟨fun hnil => ?_, fun vs hm hlen hne => ?_, fun hlen hex => ?_, by decide⟩
  · rw [hwrap]
    dsimp only
    rw [hspec.1 hnil]
    rfl
  · rw [hwrap]
    dsimp only
    rw [hspec.2.1 vs hm hlen]
    have hvlen : vs.length ≠ 0 := by
      have := congrArg List.length hm
      simp only [List.length_map] at this
      intro hz
      rw [List.length_eq_zero.1 hz] at this
      exact hne (List.length_eq_zero.1 (by simpa using this))
    dsimp only
    rw [if_neg (by simp [argparse_error_clear]), if_neg (by simpa using hvlen)]
  · rw [hwrap]
    dsimp only
    have herr := hspec.2.2 hlen hex
    rw [herr]
    dsimp only [apeSet]
    rfl


/-- Witness for the amended claim C7 on the token `"1,2,,3"`. -/
theorem claim_C7_delimiter_splitting_witness :
    listFixtureArg.type = .argIntList ∧ listFixtureArg.value = .vIntList [] ∧
    listFixtureArg.delimiter ≠ Char.ofNat 0 ∧
    parse_list_with_delimiter listFixtureArg "1,2,,3" =
      ({ listFixtureArg with value := .vIntList [1, 2, 3], set := true },
        argparse_error_clear) :=
  ⟨rfl, rfl, by decide,
    (claim_C7_delimiter_splitting listFixtureArg "1,2,,3" [] rfl rfl (by decide)).2.2.2⟩

/-! ## Claim C2: hashed and linear lookup agreement -/
theorem bucketIndex_lt (t : ArgHashTable) (h : 1 ≤ t.capacity) (k : String) :
    bucketIndex t k < t.capacity := by
  have h1 : bucketIndex t k ≤ t.capacity - 1 := Nat.and_le_right
  omega

theorem mem_foldl_placeEntry (f : String → Nat) (es : List HashEntry)
    (bs : Nat → List HashEntry) (i : Nat) (e : HashEntry) :
    e ∈ (es.foldl (placeEntry f) bs) i ↔ e ∈ bs i ∨ (e ∈ es ∧ f e.key = i) := by
  induction es generalizing bs with
  | nil => simp
  | cons e0 rest ih =>
    rw [List.foldl_cons, ih]
    unfold placeEntry
    constructor
    · rintro (h | h)
      · by_cases hi : i = f e0.key
        · rw [if_pos hi] at h
          rcases List.mem_cons.1 h with rfl | h2
          · exact Or.inr ⟨by simp, hi.symm⟩
          · exact Or.inl h2
        · rw [if_neg hi] at h
          exact Or.inl h
      · exact Or.inr ⟨List.mem_cons_of_mem _ h.1, h.2⟩
    · rintro (h | ⟨hm, hf⟩)
      · left
        by_cases hi : i = f e0.key
        · rw [if_pos hi]
          exact List.mem_cons_of_mem _ h
        · rw [if_neg hi]
          exact h
      · rcases List.mem_cons.1 hm with rfl | h2
        · left
          rw [if_pos hf.symm]
          exact List.mem_cons_self _ _
        · exact Or.inr ⟨h2, hf⟩

theorem nodup_foldl_placeEntry (f : String → Nat) (es : List HashEntry)
    (bs : Nat → List HashEntry)
    (hes : (es.map HashEntry.key).Nodup)
    (hbs : ∀ i, ((bs i).map HashEntry.key).Nodup)
    (hdis : ∀ e ∈ es, ∀ i, e.key ∉ (bs i).map HashEntry.key) :
    ∀ i, (((es.foldl (placeEntry f) bs) i).map HashEntry.key).Nodup := by
  induction es generalizing bs with
  | nil => exact hbs
  | cons e0 rest ih =>
    rw [List.map_cons, List.nodup_cons] at hes
    rw [List.foldl_cons]
    apply ih _ hes.2
    · intro i
      unfold placeEntry
      by_cases hi : i = f e0.key
      · rw [if_pos hi, List.map_cons, List.nodup_cons]
        exact ⟨hdis e0 (by simp) i, hbs i⟩
      · rw [if_neg hi]
        exact hbs i
    · intro e he i
      unfold placeEntry
      by_cases hi : i = f e0.key
      · rw [if_pos hi, List.map_cons]
        intro hmem
        rcases List.mem_cons.1 hmem with heq | h2
        · exact hes.1 (heq ▸ List.mem_map_of_mem HashEntry.key he)
        · exact hdis e (List.mem_cons_of_mem _ he) i h2
      · rw [if_neg hi]
        exact hdis e (List.mem_cons_of_mem _ he) i

theorem mem_allEntries (t : ArgHashTable) (e : HashEntry) :
    e ∈ allEntries t ↔ ∃ i, i < t.capacity ∧ e ∈ t.buckets i := by
  unfold allEntries
  constructor
  · intro h
    rcases List.mem_flatten.1 h with ⟨l, hl, hel⟩
    rcases List.mem_map.1 hl with ⟨i, hi, rfl⟩
    exact ⟨i, List.mem_range.1 hi, hel⟩
  · rintro ⟨i, hi, he⟩
    exact List.mem_flatten.2 ⟨t.buckets i, List.mem_map_of_mem _ (List.mem_range.2 hi), he⟩

theorem mem_allEntries_wf (t : ArgHashTable) (hwf : TableWF t) (k : String) (v : Nat) :
    (⟨k, v⟩ : HashEntry) ∈ allEntries t ↔ TableHas t k v := by
  rw [mem_allEntries]
  constructor
  · rintro ⟨i, _, he⟩
    have := hwf.2.1 i ⟨k, v⟩ he
    unfold TableHas
    rw [this]
    exact he
  · intro h
    exact ⟨bucketIndex t k, bucketIndex_lt t hwf.1 k, h⟩

theorem tableKeys_nodup (t : ArgHashTable) (hwf : TableWF t) : (tableKeys t).Nodup := by
  unfold tableKeys allEntries
  rw [List.map_flatten, List.map_map, List.nodup_flatten]
  constructor
  · intro l hl
    rcases List.mem_map.1 hl with ⟨i, _, rfl⟩
    exact hwf.2.2 i
  · rw [List.pairwise_map]
    apply (List.pairwise_lt_range t.capacity).imp
    intro i j hij
    rw [Function.comp_apply, Function.comp_apply, List.disjoint_left]
    intro k hki hkj
    rcases List.mem_map.1 hki with ⟨e1, he1, hk1⟩
    rcases List.mem_map.1 hkj with ⟨e2, he2, hk2⟩
    have h1 := hwf.2.1 i e1 he1
    have h2 := hwf.2.1 j e2 he2
    rw [hk1] at h1
    rw [hk2] at h2
    omega

theorem find?_entry_of_mem_nodup (l : List HashEntry) (k : String) (v : Nat)
    (hnd : (l.map HashEntry.key).Nodup) (hm : (⟨k, v⟩ : HashEntry) ∈ l) :
    l.find? (fun e => e.key = k) = some ⟨k, v⟩ := by
  induction l with
  | nil => cases hm
  | cons e0 rest ih =>
    rw [List.map_cons, List.nodup_cons] at hnd
    rcases List.mem_cons.1 hm with heq | hrest
    · rw [← heq]
      exact List.find?_cons_of_pos _ (by simp)
    · by_cases hk : e0.key = k
      · exact absurd (hk ▸ List.mem_map_of_mem HashEntry.key hrest) hnd.1
      · rw [List.find?_cons_of_neg _ (by simp [hk])]
        exact ih hnd.2 hrest

theorem lookup_spec (t : ArgHashTable) (hwf : TableWF t) (k : String) (v : Nat) :
    argparse_hash_lookup_internal t k = some v ↔ TableHas t k v := by
  unfold argparse_hash_lookup_internal TableHas
  constructor
  · intro h
    rcases Option.map_eq_some'.1 h with ⟨e, hfind, harg⟩
    have hkey : e.key = k := by simpa using List.find?_some hfind
    have hmem := List.mem_of_find?_eq_some hfind
    have heq : e = ⟨k, v⟩ := by
      cases e
      cases hkey
      cases harg
      rfl
    rw [← heq]
    exact hmem
  · intro h
    rw [find?_entry_of_mem_nodup _ k v (hwf.2.2 _) h]
    rfl

theorem resize_spec (t : ArgHashTable) (hwf : TableWF t) :
    TableWF (hash_table_resize t) ∧
    ∀ k v, (TableHas (hash_table_resize t) k v ↔ TableHas t k v) := by
  have hbidx : ∀ k, bucketIndex (hash_table_resize t) k =
      Nat.land (hashString k t.seed) (t.capacity * 2 - 1) := fun _ => rfl
  have hmem : ∀ i e, e ∈ (hash_table_resize t).buckets i ↔
      (e ∈ allEntries t ∧ Nat.land (hashString e.key t.seed) (t.capacity * 2 - 1) = i) := by
    intro i e
    show e ∈ ((allEntries t).foldl (placeEntry _) (fun _ => [])) i ↔ _
    rw [mem_foldl_placeEntry]
    simp
  have hkeysnd := tableKeys_nodup t hwf
  refine ⟨⟨?_, ?_, ?_⟩, ?_⟩
  · show 1 ≤ t.capacity * 2
    have := hwf.1
    omega
  · intro i e he
    rw [hmem i e] at he
    rw [hbidx]
    exact he.2
  · intro i
    apply nodup_foldl_placeEntry _ _ _ hkeysnd
    · intro j
      exact List.nodup_nil
    · intro e _ j
      simp
  · intro k v
    unfold TableHas
    rw [hmem, hbidx]
    constructor
    · intro h
      exact (mem_allEntries_wf t hwf k v).1 h.1
    · intro h
      exact ⟨(mem_allEntries_wf t hwf k v).2 h, rfl⟩

theorem cons_bucket_spec (t1 : ArgHashTable) (k : String) (v : Nat)
    (hwf1 : TableWF t1) (hforall : ∀ e ∈ t1.buckets (bucketIndex t1 k), ¬ e.key = k) :
    TableWF (⟨fun j => if j = bucketIndex t1 k then (⟨k, v⟩ : HashEntry) :: t1.buckets j
        else t1.buckets j, t1.capacity, t1.size + 1, t1.seed⟩ : ArgHashTable) ∧
    ∀ k2 v2, TableHas (⟨fun j => if j = bucketIndex t1 k then
        (⟨k, v⟩ : HashEntry) :: t1.buckets j
        else t1.buckets j, t1.capacity, t1.size + 1, t1.seed⟩ : ArgHashTable) k2 v2 ↔
      (TableHas t1 k2 v2 ∨ (k2 = k ∧ v2 = v)) := by
  constructor
  · refine ⟨hwf1.1, ?_, ?_⟩
    · intro j e he
      show bucketIndex t1 e.key = j
      change e ∈ (if j = bucketIndex t1 k then (⟨k, v⟩ : HashEntry) :: t1.buckets j
        else t1.buckets j) at he
      by_cases hj : j = bucketIndex t1 k
      · rw [if_pos hj] at he
        rcases List.mem_cons.1 he with rfl | he2
        · exact hj.symm
        · exact hwf1.2.1 j e he2
      · rw [if_neg hj] at he
        exact hwf1.2.1 j e he
    · intro j
      show ((if j = bucketIndex t1 k then (⟨k, v⟩ : HashEntry) :: t1.buckets j
        else t1.buckets j).map HashEntry.key).Nodup
      by_cases hj : j = bucketIndex t1 k
      · rw [if_pos hj, List.map_cons, List.nodup_cons]
        refine ⟨?_, hwf1.2.2 j⟩
        intro hmem
        rcases List.mem_map.1 hmem with ⟨e, he, hk⟩
        exact hforall e (hj ▸ he) hk
      · rw [if_neg hj]
        exact hwf1.2.2 j
  · intro k2 v2
    show (⟨k2, v2⟩ : HashEntry) ∈ (if bucketIndex t1 k2 = bucketIndex t1 k then
        (⟨k, v⟩ : HashEntry) :: t1.buckets (bucketIndex t1 k2)
        else t1.buckets (bucketIndex t1 k2)) ↔
      (TableHas t1 k2 v2 ∨ (k2 = k ∧ v2 = v))
    by_cases hj : bucketIndex t1 k2 = bucketIndex t1 k
    · rw [if_pos hj]
      constructor
      · intro h
        rcases List.mem_cons.1 h with heq | h2
        · right
          injection heq with h1 h2
          exact ⟨h1, h2⟩
        · exact Or.inl h2
      · rintro (h | ⟨rfl, rfl⟩)
        · exact List.mem_cons_of_mem _ h
        · exact List.mem_cons_self _ _
    · rw [if_neg hj]
      constructor
      · intro h
        exact Or.inl h
      · rintro (h | ⟨rfl, rfl⟩)
        · exact h
        · exact absurd rfl hj

theorem insert_fresh_spec (t : ArgHashTable) (k : String) (v : Nat)
    (hwf : TableWF t) (hfresh : ∀ w, ¬ TableHas t k w) :
    TableWF (argparse_hash_insert_internal t k v) ∧
    ∀ k2 v2, TableHas (argparse_hash_insert_internal t k v) k2 v2 ↔
      (TableHas t k2 v2 ∨ (k2 = k ∧ v2 = v)) := by
  obtain ⟨t1, ht1, hwf1, hhas1⟩ :
      ∃ t1, (if 4 * t.size > 3 * t.capacity then hash_table_resize t else t) = t1 ∧
        TableWF t1 ∧ (∀ k2 v2, TableHas t1 k2 v2 ↔ TableHas t k2 v2) := by
    by_cases hl : 4 * t.size > 3 * t.capacity
    · exact ⟨_, if_pos hl, (resize_spec t hwf).1, (resize_spec t hwf).2⟩
    · exact ⟨_, if_neg hl, hwf, fun _ _ => Iff.rfl⟩
  have hforall : ∀ e ∈ t1.buckets (bucketIndex t1 k), ¬ e.key = k := by
    intro e he hk
    apply hfresh e.argument
    apply (hhas1 k e.argument).1
    unfold TableHas
    have heq : (⟨k, e.argument⟩ : HashEntry) = e := by
      cases e
      cases hk
      rfl
    rw [heq]
    exact he
  have hany : (t1.buckets (bucketIndex t1 k)).any (fun e => e.key = k) = false := by
    rw [List.any_eq_false]
    intro e he
    simp only [decide_eq_true_eq]
    exact hforall e he
  have hinsert : argparse_hash_insert_internal t k v =
      ⟨fun j => if j = bucketIndex t1 k then (⟨k, v⟩ : HashEntry) :: t1.buckets j
          else t1.buckets j, t1.capacity, t1.size + 1, t1.seed⟩ := by
    unfold argparse_hash_insert_internal
    dsimp only
    rw [ht1, hany]
    simp
  obtain ⟨hw2, hh2⟩ := cons_bucket_spec t1 k v hwf1 hforall
  rw [hinsert]
  exact ⟨hw2, fun k2 v2 => (hh2 k2 v2).trans (or_congr (hhas1 k2 v2) Iff.rfl)⟩

theorem registryNames_cons (a : Argument) (rest : List Argument) :
    registryNames (a :: rest) = argNames a ++ registryNames rest := by
  simp [registryNames]

theorem fst_mem_of_mem_pairsFrom (args : List Argument) (i0 : Nat) (n : String) (j : Nat)
    (h : (n, j) ∈ pairsFrom i0 args) : n ∈ registryNames args := by
  induction args generalizing i0 with
  | nil => cases h
  | cons a rest ih =>
    rw [pairsFrom] at h
    rw [registryNames_cons, List.mem_append]
    rcases List.mem_append.1 h with h1 | h2
    · left
      rcases List.mem_map.1 h1 with ⟨m, hm, he⟩
      injection he with e1 _
      rw [← e1]
      exact hm
    · right
      exact ih (i0 + 1) h2

theorem mem_registryNames_iff (args : List Argument) (i0 : Nat) (n : String) :
    n ∈ registryNames args ↔ ∃ j, (n, j) ∈ pairsFrom i0 args := by
  induction args generalizing i0 with
  | nil => simp [registryNames, pairsFrom]
  | cons a rest ih =>
    rw [registryNames_cons, pairsFrom, List.mem_append]
    constructor
    · rintro (h | h)
      · exact ⟨i0, List.mem_append_left _ (List.mem_map_of_mem _ h)⟩
      · rcases (ih (i0 + 1)).1 h with ⟨j, hj⟩
        exact ⟨j, List.mem_append_right _ hj⟩
    · rintro ⟨j, hj⟩
      rcases List.mem_append.1 hj with h1 | h2
      · left
        rcases List.mem_map.1 h1 with ⟨m, hm, he⟩
        injection he with e1 _
        rw [← e1]
        exact hm
      · right
        exact (ih (i0 + 1)).2 ⟨j, h2⟩

theorem insertArgNames_spec (t : ArgHashTable) (a : Argument) (i0 : Nat)
    (hwf : TableWF t) (hnd : (argNames a).Nodup)
    (hfresh : ∀ nm ∈ argNames a, ∀ w, ¬ TableHas t nm w) :
    TableWF (insertArgNames t a i0) ∧
    ∀ k v, TableHas (insertArgNames t a i0) k v ↔
      (TableHas t k v ∨ (k, v) ∈ (argNames a).map (fun n => (n, i0))) := by
  have hargnames : argNames a = a.short_name.toList ++ a.long_name.toList := rfl
  unfold insertArgNames
  cases hs : a.short_name with
  | none =>
    cases hl : a.long_name with
    | none =>
      rw [hs, hl] at hargnames
      simp only [Option.toList_none, List.nil_append] at hargnames
      refine ⟨hwf, fun k v => ?_⟩
      rw [hargnames]
      simp
    | some ln =>
      rw [hs, hl] at hargnames
      simp only [Option.toList_none, Option.toList_some, List.nil_append] at hargnames
      have hfr : ∀ w, ¬ TableHas t ln w := hfresh ln (by rw [hargnames]; exact List.mem_cons_self _ _)
      obtain ⟨hw, hh⟩ := insert_fresh_spec t ln i0 hwf hfr
      refine ⟨hw, fun k v => (hh k v).trans ?_⟩
      rw [hargnames]
      simp [Prod.ext_iff]
  | some sn =>
    cases hl : a.long_name with
    | none =>
      rw [hs, hl] at hargnames
      simp only [Option.toList_none, Option.toList_some, List.append_nil] at hargnames
      have hfr : ∀ w, ¬ TableHas t sn w := hfresh sn (by rw [hargnames]; exact List.mem_cons_self _ _)
      obtain ⟨hw, hh⟩ := insert_fresh_spec t sn i0 hwf hfr
      refine ⟨hw, fun k v => (hh k v).trans ?_⟩
      rw [hargnames]
      simp [Prod.ext_iff]
    | some ln =>
      rw [hs, hl] at hargnames
      simp only [Option.toList_some, List.singleton_append] at hargnames
      rw [hargnames] at hnd hfresh
      have hne : sn ≠ ln := fun h =>
        (List.nodup_cons.1 hnd).1 (by rw [h]; exact List.mem_cons_self _ _)
      obtain ⟨hw1, hh1⟩ := insert_fresh_spec t sn i0 hwf
        (hfresh sn (List.mem_cons_self _ _))
      have hfr2 : ∀ w, ¬ TableHas (argparse_hash_insert_internal t sn i0) ln w := by
        intro w hw
        rcases (hh1 ln w).1 hw with h | ⟨h1, _⟩
        · exact hfresh ln (List.mem_cons_of_mem _ (List.mem_cons_self _ _)) w h
        · exact hne h1.symm
      obtain ⟨hw2, hh2⟩ := insert_fresh_spec _ ln i0 hw1 hfr2
      refine ⟨hw2, fun k v => (hh2 k v).trans ?_⟩
      rw [hargnames]
      simp only [List.map_cons, List.map_nil, List.mem_cons, List.not_mem_nil, or_false,
        Prod.mk.injEq]
      rw [hh1 k v]
      tauto

theorem buildFrom_spec (args : List Argument) (i0 : Nat) (t : ArgHashTable)
    (hwf : TableWF t) (hnd : (registryNames args).Nodup)
    (hfresh : ∀ nm ∈ registryNames args, ∀ w, ¬ TableHas t nm w) :
    TableWF (buildFrom t i0 args) ∧
    ∀ k v, TableHas (buildFrom t i0 args) k v ↔
      (TableHas t k v ∨ (k, v) ∈ pairsFrom i0 args) := by
  induction args generalizing t i0 with
  | nil =>
    rw [buildFrom]
    refine ⟨hwf, fun k v => ?_⟩
    rw [pairsFrom]
    simp
  | cons a rest ih =>
    rw [registryNames_cons, List.nodup_append] at hnd
    have hfa : ∀ nm ∈ argNames a, ∀ w, ¬ TableHas t nm w := fun nm hm =>
      hfresh nm (by rw [registryNames_cons]; exact List.mem_append_left _ hm)
    obtain ⟨hw1, hh1⟩ := insertArgNames_spec t a i0 hwf hnd.1 hfa
    have hfr : ∀ nm ∈ registryNames rest, ∀ w, ¬ TableHas (insertArgNames t a i0) nm w := by
      intro nm hm w hw
      rcases (hh1 nm w).1 hw with h | h
      · exact hfresh nm (by rw [registryNames_cons]; exact List.mem_append_right _ hm) w h
      · rcases List.mem_map.1 h with ⟨m, hmm, he⟩
        injection he with e1 _
        exact hnd.2.2 (e1 ▸ hmm) hm
    obtain ⟨hw2, hh2⟩ := ih (i0 + 1) (insertArgNames t a i0) hw1 hnd.2.1 hfr
    rw [buildFrom]
    refine ⟨hw2, fun k v => (hh2 k v).trans ?_⟩
    rw [pairsFrom, List.mem_append, hh1 k v]
    tauto

theorem linearFindFrom_eq_some_iff (args : List Argument) (i0 : Nat) (n : String) (j : Nat)
    (hnd : (registryNames args).Nodup) :
    linearFindFrom i0 args n = some j ↔ (n, j) ∈ pairsFrom i0 args := by
  induction args generalizing i0 with
  | nil => simp [linearFindFrom, pairsFrom]
  | cons a rest ih =>
    rw [registryNames_cons, List.nodup_append] at hnd
    rw [linearFindFrom, pairsFrom, List.mem_append]
    by_cases hsn : a.short_name = some n
    · rw [if_pos hsn]
      have hmemn : n ∈ argNames a := by simp [argNames, hsn]
      constructor
      · intro h
        injection h with h
        left
        rw [← h]
        exact List.mem_map_of_mem _ hmemn
      · rintro (h | h)
        · rcases List.mem_map.1 h with ⟨m, _, he⟩
          injection he with _ e2
          rw [e2]
        · exact absurd (fst_mem_of_mem_pairsFrom rest (i0 + 1) n j h)
            (fun hc => hnd.2.2 hmemn hc)
    · by_cases hln : a.long_name = some n
      · rw [if_neg hsn, if_pos hln]
        have hmemn : n ∈ argNames a := by simp [argNames, hln]
        constructor
        · intro h
          injection h with h
          left
          rw [← h]
          exact List.mem_map_of_mem _ hmemn
        · rintro (h | h)
          · rcases List.mem_map.1 h with ⟨m, _, he⟩
            injection he with _ e2
            rw [e2]
          · exact absurd (fst_mem_of_mem_pairsFrom rest (i0 + 1) n j h)
              (fun hc => hnd.2.2 hmemn hc)
      · rw [if_neg hsn, if_neg hln, ih (i0 + 1) hnd.2.1]
        constructor
        · intro h
          exact Or.inr h
        · rintro (h | h)
          · exfalso
            rcases List.mem_map.1 h with ⟨m, hm, he⟩
            injection he with e1 _
            have hmem : n ∈ argNames a := e1 ▸ hm
            simp [argNames] at hmem
            rcases hmem with h1 | h1
            · exact hsn h1
            · exact hln h1
          · exact h

theorem create_wf (seed : Nat) : TableWF (argparse_hash_create_internal seed) := by
  refine ⟨?_, ?_, ?_⟩
  · show (1 : Nat) ≤ 256
    decide
  · intro i e he
    cases he
  · intro i
    exact List.nodup_nil

/-- Claim C2: for every registry whose registered names (short and long) are
pairwise distinct and every name, the hashed lookup over the table built by
`ensure_hash_table_built` agrees with the linear scan of
`argparse_hash_find_argument`, and the keys stored by the build are a
permutation of the registered names: building loses no entry and duplicates
no entry. -/
theorem claim_C2_lookup_modes_agree (args : List Argument) (seed : Nat) (n : String)
    (hnd : (registryNames args).Nodup) :
    argparse_hash_lookup_internal (builtTable args seed) n = linearFindFrom 0 args n ∧
    (tableKeys (builtTable args seed)).Perm (registryNames args) := by
  have hwf0 := create_wf seed
  have hfresh0 : ∀ nm ∈ registryNames args, ∀ w,
      ¬ TableHas (argparse_hash_create_internal seed) nm w := by
    intro nm _ w hw
    cases hw
  obtain ⟨hwfb, hhasb⟩ :=
    buildFrom_spec args 0 (argparse_hash_create_internal seed) hwf0 hnd hfresh0
  have hhasb2 : ∀ k v, TableHas (builtTable args seed) k v ↔ (k, v) ∈ pairsFrom 0 args := by
    intro k v
    refine (hhasb k v).trans ?_
    constructor
    · rintro (h | h)
      · cases h
      · exact h
    · exact Or.inr
  constructor
  · cases hlin : linearFindFrom 0 args n with
    | none =>
      cases hhash : argparse_hash_lookup_internal (builtTable args seed) n with
      | none => rfl
      | some v =>
        exfalso
        have h1 := (lookup_spec _ hwfb n v).1 hhash
        have h2 := (hhasb2 n v).1 h1
        have h3 := (linearFindFrom_eq_some_iff args 0 n v hnd).2 h2
        rw [hlin] at h3
        cases h3
    | some j =>
      have hp := (linearFindFrom_eq_some_iff args 0 n j hnd).1 hlin
      exact (lookup_spec _ hwfb n j).2 ((hhasb2 n j).2 hp)
  · rw [List.perm_ext_iff_of_nodup (tableKeys_nodup (builtTable args seed) hwfb) hnd]
    intro m
    unfold tableKeys
    constructor
    · intro hm
      rcases List.mem_map.1 hm with ⟨e, he, hk⟩
      have h1 : TableHas (builtTable args seed) e.key e.argument :=
        (mem_allEntries_wf _ hwfb e.key e.argument).1 he
      have h2 := (hhasb2 e.key e.argument).1 h1
      rw [← hk]
      exact fst_mem_of_mem_pairsFrom args 0 e.key e.argument h2
    · intro hm
      rcases (mem_registryNames_iff args 0 m).1 hm with ⟨j, hj⟩
      have h1 := (hhasb2 m j).2 hj
      have h2 := (mem_allEntries_wf _ hwfb m j).2 h1
      exact List.mem_map.2 ⟨⟨m, j⟩, h2, rfl⟩

/-- Concrete instantiation of the lookup-agreement claim on the two-argument
fixture registry with a fixed seed. -/
theorem claim_C2_lookup_modes_agree_witness :
    (registryNames lookupFixture).Nodup ∧
    (argparse_hash_lookup_internal (builtTable lookupFixture 12345) "--beta" =
        linearFindFrom 0 lookupFixture "--beta" ∧
      (tableKeys (builtTable lookupFixture 12345)).Perm (registryNames lookupFixture)) :=
  ⟨by decide, claim_C2_lookup_modes_agree lookupFixture 12345 "--beta" (by decide)⟩

end Argparse
